import Mathlib

/-!
UDP time client and server: wire format, offset estimator, session list.

A shallow embedding of `client.c` and `server.c`.

* Buffers are lists of bytes (`Fin 256`).  A `uint8_t buffer[n]` that the C
  code declares without initialising it is a list of length `n` whose contents
  are a parameter (`stale`): the code may not assume anything about it.
* `memcpy(buffer + off, &x, k)` overwrites `k` bytes at offset `off` with the
  object representation of `x`; `memcpy(&x, buffer + off, k)` loads `x` from
  those bytes.  The object representation depends on the byte order of the
  host (`Endian`), and so do `htonl`, `htons`, `htobe64`, `ntohl`, `be64toh`.
* Unsigned machine integers are naturals reduced modulo `2 ^ w` where the C
  code converts; `int` values are integers.
* `long double` and `float` arithmetic of the estimator is carried out over
  the rationals: rounding is not part of the model.
-/

namespace UdpTime

/-! ## Bytes and object representations -/

/-- One octet. -/
abbrev Byte := Fin 256

/-- Byte order of the host the program runs on. -/
inductive Endian where
  | little
  | big
  deriving DecidableEq, Repr

/-- The low octet of a natural number. -/
def lowByte (x : Nat) : Byte := ⟨x % 256, Nat.mod_lt _ (by decide)⟩

/-- The `k` low octets of `x`, least significant first. -/
def toLE : Nat → Nat → List Byte
  | 0, _ => []
  | k + 1, x => lowByte x :: toLE k (x / 256)

/-- Value of a list of octets read least significant first. -/
def ofLE : List Byte → Nat
  | [] => 0
  | b :: bs => b.val + 256 * ofLE bs

/-- The `k` low octets of `x`, most significant first. -/
def toBE (k x : Nat) : List Byte := (toLE k x).reverse

/-- Value of a list of octets read most significant first. -/
def ofBE (bs : List Byte) : Nat := ofLE bs.reverse

/-- Object representation of a `k`-octet unsigned integer in host memory. -/
def store (e : Endian) (k x : Nat) : List Byte :=
  match e with
  | .little => toLE k x
  | .big => toBE k x

/-- Unsigned integer whose object representation in host memory is `bs`. -/
def load (e : Endian) (bs : List Byte) : Nat :=
  match e with
  | .little => ofLE bs
  | .big => ofBE bs

/-- Reversal of the `k` octets of `x`. -/
def bswap (k x : Nat) : Nat := ofLE (toBE k x)

/-- Host to network order on `k` octets: a byte swap on a little-endian host,
the identity (on `k` octets) on a big-endian host. -/
def hton (e : Endian) (k x : Nat) : Nat :=
  match e with
  | .little => bswap k x
  | .big => x % 256 ^ k

/-- `htonl`: the argument is converted to `uint32_t`. -/
def htonl (e : Endian) (x : Nat) : Nat := hton e 4 x

/-- `htons`: the argument is converted to `uint16_t`. -/
def htons (e : Endian) (x : Nat) : Nat := hton e 2 x

/-- `htobe64`: the argument is converted to `uint64_t`. -/
def htobe64 (e : Endian) (x : Nat) : Nat := hton e 8 x

/-- `ntohl`: the same permutation of octets as `htonl`. -/
def ntohl (e : Endian) (x : Nat) : Nat := hton e 4 x

/-- `be64toh`: the same permutation of octets as `htobe64`. -/
def be64toh (e : Endian) (x : Nat) : Nat := hton e 8 x

/-- `memcpy(buf + off, src, src.length)` on a buffer that is large enough. -/
def memcpy (buf : List Byte) (off : Nat) (src : List Byte) : List Byte :=
  buf.take off ++ src ++ buf.drop (off + src.length)

/-- The `k` octets of `buf` starting at offset `off`. -/
def readAt (buf : List Byte) (off k : Nat) : List Byte :=
  (buf.drop off).take k

/-! ## Big-endian fields as the wire format document writes them -/

/-- Two octets, most significant first. -/
def BE16 (x : Nat) : List Byte := [lowByte (x / 2 ^ 8), lowByte x]

/-- Four octets, most significant first. -/
def BE32 (x : Nat) : List Byte :=
  [lowByte (x / 2 ^ 24), lowByte (x / 2 ^ 16), lowByte (x / 2 ^ 8), lowByte x]

/-- Eight octets, most significant first. -/
def BE64 (x : Nat) : List Byte :=
  [lowByte (x / 2 ^ 56), lowByte (x / 2 ^ 48), lowByte (x / 2 ^ 40), lowByte (x / 2 ^ 32),
   lowByte (x / 2 ^ 24), lowByte (x / 2 ^ 16), lowByte (x / 2 ^ 8), lowByte x]

/-- The version field of either format, as the wire format document writes it. -/
def versionField (condensed : Bool) : List Byte := if condensed then BE16 7 else BE32 7

/-- Contents of a `uint8_t buffer[n]` that was declared but never written:
`n` octets about which nothing is known. -/
def freshBuffer (n : Nat) (stale : Nat → Byte) : List Byte :=
  (List.range n).map stale

/-- What `recvfrom(sock, buffer, cap, ...)` leaves in `buffer` when the datagram
`d` arrives: at most `cap` octets of `d` are written at the front, the rest of
the buffer keeps what it held. -/
def recvInto (buffer : List Byte) (cap : Nat) (d : List Byte) : List Byte :=
  memcpy buffer 0 (d.take cap)

/-- Conversion of a `uint32_t` to `int` (two's complement). -/
def toInt32 (x : Nat) : Int :=
  if x % 2 ^ 32 < 2 ^ 31 then (x % 2 ^ 32 : Nat) else ((x % 2 ^ 32 : Nat) : Int) - 2 ^ 32

/-! ## client.c -/

namespace Client

/-- `SEND_BUFFER_SIZE` of client.c. -/
def SEND_BUFFER_SIZE : Nat := 24

/-- `RECV_BUFFER_SIZE` of client.c. -/
def RECV_BUFFER_SIZE : Nat := 40

/-- `send_len = SEND_BUFFER_SIZE + (args.condensed ? -2 : 0)`. -/
def send_len (condensed : Bool) : Nat := SEND_BUFFER_SIZE - (if condensed then 2 else 0)

/-- `recv_len = RECV_BUFFER_SIZE + (args.condensed ? -2 : 0)`. -/
def recv_len (condensed : Bool) : Nat := RECV_BUFFER_SIZE - (if condensed then 2 else 0)

/-- Lines 138-161 of client.c: the datagram handed to `sendto` when the value
given to `htonl` is `seq` and the clock read `(sec, nsec)`, both already
converted to `uint64_t`.  `stale` is what the buffer held before. -/
def encodeRequest (e : Endian) (condensed : Bool) (stale : Nat → Byte)
    (seq sec nsec : Nat) : List Byte :=
  let buffer := freshBuffer (send_len condensed) stale
  let seq := htonl e seq
  let sec_nb := htobe64 e sec
  let nsec_nb := htobe64 e nsec
  let buffer := memcpy buffer 0 (store e 4 seq)
  let buffer :=
    if condensed then
      let ver := htons e 7
      let buffer := memcpy buffer 4 (store e 2 ver)
      let buffer := memcpy buffer 6 (store e 8 sec_nb)
      memcpy buffer 14 (store e 8 nsec_nb)
    else
      let ver := htonl e 7
      let buffer := memcpy buffer 4 (store e 4 ver)
      let buffer := memcpy buffer 8 (store e 8 sec_nb)
      memcpy buffer 16 (store e 8 nsec_nb)
  buffer.take (send_len condensed)

/-- What the environment supplies to one iteration of the send loop. -/
structure SendInput where
  /-- Prior contents of the send buffer. -/
  stale : Nat → Byte
  /-- `(uint64_t)tspec.tv_sec`. -/
  sec : Nat
  /-- `(uint64_t)tspec.tv_nsec`. -/
  nsec : Nat

/-- Body of the send loop (lines 130-162) at index `i`: the request carries `i + 1`. -/
def sendIteration (e : Endian) (condensed : Bool) (env : Nat → SendInput) (i : Nat) : List Byte :=
  encodeRequest e condensed (env i).stale (i + 1) (env i).sec (env i).nsec

/-- The send loop: the datagrams given to `sendto`, in order. -/
def sendLoop (e : Endian) (condensed : Bool) (reqnum : Nat) (env : Nat → SendInput) :
    List (List Byte) :=
  (List.range reqnum).map (sendIteration e condensed env)

/-- `Response` of client.c; `theta` and `delta` are kept exact. -/
structure Response where
  seq : Nat
  theta : ℚ
  delta : ℚ
  deriving DecidableEq, Repr

/-- The fields the receive loop reads from its buffer (lines 193-221), after
`ntohl` and `be64toh`.  The version field is copied out and never used. -/
structure Decoded where
  seq : Nat
  client_sec1 : Nat
  client_nsec1 : Nat
  serv_sec : Nat
  serv_nsec : Nat
  deriving DecidableEq, Repr

/-- Lines 193-221 of client.c. -/
def decodeResponse (e : Endian) (condensed : Bool) (buffer : List Byte) : Decoded :=
  if condensed then
    { seq := ntohl e (load e (readAt buffer 0 4))
      client_sec1 := be64toh e (load e (readAt buffer 6 8))
      client_nsec1 := be64toh e (load e (readAt buffer 14 8))
      serv_sec := be64toh e (load e (readAt buffer 22 8))
      serv_nsec := be64toh e (load e (readAt buffer 30 8)) }
  else
    { seq := ntohl e (load e (readAt buffer 0 4))
      client_sec1 := be64toh e (load e (readAt buffer 8 8))
      client_nsec1 := be64toh e (load e (readAt buffer 16 8))
      serv_sec := be64toh e (load e (readAt buffer 24 8))
      serv_nsec := be64toh e (load e (readAt buffer 32 8)) }

/-- An instant `sec + nsec / 1e9`. -/
def instant (sec nsec : Nat) : ℚ := (sec : ℚ) + (nsec : ℚ) / 1000000000

/-- Lines 223-232 of client.c: the range check on the sequence number and the
store into `responses[seq - 1]`.  `(sec2, nsec2)` is the arrival time. -/
def storeResult (reqnum : Nat) (d : Decoded) (sec2 nsec2 : Nat)
    (responses : List Response) : List Response :=
  if d.seq = 0 ∨ d.seq > reqnum % 2 ^ 32 then responses
  else
    let t0 := instant d.client_sec1 d.client_nsec1
    let t1 := instant d.serv_sec d.serv_nsec
    let t2 := instant sec2 nsec2
    responses.set (d.seq - 1)
      { seq := d.seq, theta := ((t1 - t0) + (t1 - t2)) / 2, delta := t2 - t0 }

/-- What the environment supplies to one iteration of the receive loop. -/
structure RecvInput where
  /-- Prior contents of the receive buffer. -/
  stale : Nat → Byte
  /-- Outcome of `recvfrom`: `none` when it returned a negative value. -/
  recv : Option (List Byte)
  /-- `(uint64_t)tspec.tv_sec` read after the receive. -/
  sec2 : Nat
  /-- `(uint64_t)tspec.tv_nsec` read after the receive. -/
  nsec2 : Nat

/-- The receive buffer after a datagram `d` arrived. -/
def recvBuffer (condensed : Bool) (stale : Nat → Byte) (d : List Byte) : List Byte :=
  recvInto (freshBuffer (recv_len condensed) stale) (recv_len condensed) d

/-- Lines 188-232 of client.c: one iteration of the receive loop after
`recvfrom` delivered the datagram `d`. -/
def processDatagram (e : Endian) (condensed : Bool) (reqnum : Nat) (stale : Nat → Byte)
    (d : List Byte) (sec2 nsec2 : Nat) (responses : List Response) : List Response :=
  storeResult reqnum (decodeResponse e condensed (recvBuffer condensed stale d)) sec2 nsec2
    responses

/-- The receive loop (lines 179-233) over the outcomes of its successive
`recvfrom` calls; it stops at the first failed one. -/
def recvLoop (e : Endian) (condensed : Bool) (reqnum : Nat) :
    List RecvInput → List Response → List Response
  | [], responses => responses
  | inp :: rest, responses =>
    match inp.recv with
    | none => responses
    | some d =>
      recvLoop e condensed reqnum rest
        (processDatagram e condensed reqnum inp.stale d inp.sec2 inp.nsec2 responses)

/-- The sequence number the receive loop decodes in an iteration, if `recvfrom`
delivered a datagram. -/
def decodedSeq (e : Endian) (condensed : Bool) (inp : RecvInput) : Option Nat :=
  inp.recv.map (fun d => (decodeResponse e condensed (recvBuffer condensed inp.stale d)).seq)

/-- `calloc(args.reqnum, sizeof(Response))`, the allocation succeeding. -/
def emptyTable (reqnum : Nat) : List Response :=
  List.replicate reqnum { seq := 0, theta := 0, delta := 0 }

/-- The receive phase: at most `reqnum` calls of `recvfrom`, on a zeroed table. -/
def recvPhase (e : Endian) (condensed : Bool) (reqnum : Nat) (env : Nat → RecvInput) :
    List Response :=
  recvLoop e condensed reqnum ((List.range reqnum).map env) (emptyTable reqnum)

/-- One line of the report; the text of the two numbers is not modelled. -/
inductive ReportLine where
  | dropped (n : Nat)
  | result (n : Nat) (theta delta : ℚ)
  deriving DecidableEq, Repr

/-- The line number printed in front of a report line. -/
def ReportLine.number : ReportLine → Nat
  | .dropped n => n
  | .result n _ _ => n

/-- Whether the line reads "Dropped". -/
def ReportLine.isDropped : ReportLine → Bool
  | .dropped _ => true
  | .result _ _ _ => false

/-- Body of the report loop (lines 237-243) at index `i`. -/
def reportLine (responses : List Response) (i : Nat) : ReportLine :=
  let r := responses.getD i { seq := 0, theta := 0, delta := 0 }
  if r.seq = 0 then .dropped (i + 1) else .result (i + 1) r.theta r.delta

/-- The report loop. -/
def report (reqnum : Nat) (responses : List Response) : List ReportLine :=
  (List.range reqnum).map (reportLine responses)

/-- The iterations of the receive loop that process a datagram: those before
the first `recvfrom` that failed. -/
def processed (inputs : List RecvInput) : List RecvInput :=
  inputs.takeWhile (fun inp => inp.recv.isSome)

end Client

/-! ## server.c -/

namespace Server

/-- `SEND_BUFFER_SIZE` of server.c. -/
def SEND_BUFFER_SIZE : Nat := 40

/-- `RECV_BUFFER_SIZE` of server.c. -/
def RECV_BUFFER_SIZE : Nat := 24

/-- `recv_len = RECV_BUFFER_SIZE + (args.condensed ? -2 : 0)`. -/
def recv_len (condensed : Bool) : Nat := RECV_BUFFER_SIZE - (if condensed then 2 else 0)

/-- `send_len = SEND_BUFFER_SIZE + (args.condensed ? -2 : 0)`. -/
def send_len (condensed : Bool) : Nat := SEND_BUFFER_SIZE - (if condensed then 2 else 0)

/-- `Node` of server.c; the list is the chain of `next` pointers. -/
structure Node where
  last_update : Int
  seq : Int
  addr : String
  port : String
  deriving DecidableEq, Repr

/-- One line printed by `update_clients`: `addr:port new_seq seq`. -/
structure Observation where
  addr : String
  port : String
  new_seq : Int
  seq : Int
  deriving DecidableEq, Repr

/-- Lines 94-98 of server.c: the reset of a node that is 120 seconds old. -/
def expire (cur_time : Int) (current : Node) : Node :=
  if cur_time - current.last_update ≥ 120 then
    { current with seq := 0, last_update := cur_time }
  else current

/-- `update_clients` of server.c: the new list and the lines printed. -/
def update_clients : List Node → String → String → Int → Int → List Node × List Observation
  | [], addr, port, new_seq, cur_time =>
    ([{ last_update := cur_time, seq := new_seq, addr := addr, port := port }], [])
  | current :: next, addr, port, new_seq, cur_time =>
    let current := expire cur_time current
    if current.addr = addr ∧ current.port = port then
      ({ current with seq := new_seq, last_update := cur_time } :: next,
        if new_seq < current.seq then
          [{ addr := current.addr, port := current.port, new_seq := new_seq, seq := current.seq }]
        else [])
    else
      let r := update_clients next addr port new_seq cur_time
      (current :: r.1, r.2)

/-- What the server loop reads from its receive buffer (lines 194-216):
the sequence number in host order, the two time fields as they are. -/
structure Decoded where
  client_seq : Nat
  csec_nb : Nat
  cnsec_nb : Nat
  deriving DecidableEq, Repr

/-- Lines 194-216 of server.c. -/
def decodeRequest (e : Endian) (condensed : Bool) (buffer : List Byte) : Decoded :=
  if condensed then
    { client_seq := ntohl e (load e (readAt buffer 0 4))
      csec_nb := load e (readAt buffer 6 8)
      cnsec_nb := load e (readAt buffer 14 8) }
  else
    { client_seq := ntohl e (load e (readAt buffer 0 4))
      csec_nb := load e (readAt buffer 8 8)
      cnsec_nb := load e (readAt buffer 16 8) }

/-- Lines 220-250 of server.c: the datagram handed to `sendto`. -/
def encodeResponse (e : Endian) (condensed : Bool) (stale : Nat → Byte) (d : Decoded)
    (tv_sec tv_nsec : Nat) : List Byte :=
  let ssec := htobe64 e tv_sec
  let snsec := htobe64 e tv_nsec
  let outbuf := freshBuffer (send_len condensed) stale
  let outbuf :=
    if condensed then
      let ver16 := htons e 7
      let seqn := htonl e d.client_seq
      let outbuf := memcpy outbuf 0 (store e 4 seqn)
      let outbuf := memcpy outbuf 4 (store e 2 ver16)
      let outbuf := memcpy outbuf 6 (store e 8 d.csec_nb)
      let outbuf := memcpy outbuf 14 (store e 8 d.cnsec_nb)
      let outbuf := memcpy outbuf 22 (store e 8 ssec)
      memcpy outbuf 30 (store e 8 snsec)
    else
      let ver32 := htonl e 7
      let seqn := htonl e d.client_seq
      let outbuf := memcpy outbuf 0 (store e 4 seqn)
      let outbuf := memcpy outbuf 4 (store e 4 ver32)
      let outbuf := memcpy outbuf 8 (store e 8 d.csec_nb)
      let outbuf := memcpy outbuf 16 (store e 8 d.cnsec_nb)
      let outbuf := memcpy outbuf 24 (store e 8 ssec)
      memcpy outbuf 32 (store e 8 snsec)
  outbuf.take (send_len condensed)

/-- The options of the server that the loop reads. -/
structure Args where
  drop_percent : Nat
  condensed : Bool

/-- What the environment supplies to one iteration of the server loop. -/
structure Input where
  /-- Prior contents of the receive buffer. -/
  stale : Nat → Byte
  /-- Outcome of `recvfrom`: `none` when it returned a negative value. -/
  recv : Option (List Byte)
  /-- Numeric host of the sender, from `getnameinfo`. -/
  addr : String
  /-- Numeric service of the sender, from `getnameinfo`. -/
  port : String
  /-- Value returned by `rand()`. -/
  rand : Nat
  /-- `ts.tv_sec`. -/
  tv_sec : Nat
  /-- `ts.tv_nsec`. -/
  tv_nsec : Nat
  /-- Prior contents of the send buffer. -/
  stale_out : Nat → Byte

/-- Effect of one iteration of the server loop. -/
structure Output where
  /-- The session list afterwards. -/
  clients : List Node
  /-- The datagram given to `sendto`, if any. -/
  sent : Option (List Byte)
  /-- The lines printed. -/
  log : List Observation
  deriving DecidableEq

/-- The receive buffer after a datagram `d` arrived. -/
def recvBuffer (condensed : Bool) (stale : Nat → Byte) (d : List Byte) : List Byte :=
  recvInto (freshBuffer (recv_len condensed) stale) (recv_len condensed) d

/-- Lines 182-184 of server.c: the loss decision on the value of `rand()`. -/
def dropped (args : Args) (rand : Nat) : Bool :=
  decide (rand % 101 < args.drop_percent)

/-- One iteration of the server loop (lines 173-250). -/
def step (e : Endian) (args : Args) (clients : List Node) (inp : Input) : Output :=
  match inp.recv with
  | none => { clients := clients, sent := none, log := [] }
  | some d =>
    if dropped args inp.rand then { clients := clients, sent := none, log := [] }
    else
      let req := decodeRequest e args.condensed (recvBuffer args.condensed inp.stale d)
      let r := update_clients clients inp.addr inp.port (toInt32 req.client_seq) inp.tv_sec
      { clients := r.1
        sent := some (encodeResponse e args.condensed inp.stale_out req inp.tv_sec inp.tv_nsec)
        log := r.2 }

/-- The server loop over the inputs of its successive iterations, starting from
the session list `clients`: the effect of each iteration, in order. -/
def loop (e : Endian) (args : Args) : List Node → List Input → List Output
  | _, [] => []
  | clients, inp :: rest =>
    step e args clients inp :: loop e args (step e args clients inp).clients rest

/-- The pair `update_clients` compares with `strcmp`: address and port. -/
def Node.key (n : Node) : String × String := (n.addr, n.port)

/-- The test of line 100 of server.c on a node. -/
def isFor (addr port : String) (n : Node) : Prop := n.addr = addr ∧ n.port = port

/-- At most one session per (address, port) pair. -/
def UniqueSessions (clients : List Node) : Prop := (clients.map Node.key).Nodup

/-- Position of the first session for `(addr, port)` in the list; the length of
the list when there is none. -/
def firstMatch (addr port : String) : List Node → Nat
  | [] => 0
  | n :: rest => if n.addr = addr ∧ n.port = port then 0 else firstMatch addr port rest + 1

/-- The sequence number the server loop decodes in an iteration (0 when
`recvfrom` failed and nothing is decoded). -/
def requestSeq (e : Endian) (condensed : Bool) (inp : Input) : Nat :=
  match inp.recv with
  | none => 0
  | some d => (decodeRequest e condensed (recvBuffer condensed inp.stale d)).client_seq

end Server

/-! ## A run of five requests -/

namespace Scenario

/-- Clock and buffer contents of the five send iterations. -/
def sendEnv (i : Nat) : Client.SendInput := ⟨fun _ => 0, 100 + i, 0⟩

/-- The server receives the five standard requests in the order they were sent. -/
def srvInputs : List Server.Input :=
  (List.range 5).map (fun i =>
    ⟨fun _ => 0, some (Client.sendIteration .little false sendEnv i), "10.0.0.1", "4000", 0,
      200 + i, 0, fun _ => 0⟩)

/-- What the server sends, nothing being dropped. -/
def sent : List (Option (List Byte)) :=
  (Server.loop .little ⟨0, false⟩ [] srvInputs).map (fun o => o.sent)

/-- The client receives the five responses in the reverse order. -/
def recvEnv (i : Nat) : Client.RecvInput := ⟨fun _ => 0, sent.getD (4 - i) none, 300, 0⟩

/-- A standard request numbered `seq` from `10.0.0.1:4000`, processed at
second `t`, nothing being dropped. -/
def request (seq t : Nat) : Server.Input :=
  ⟨fun _ => 0, some (Client.encodeRequest .little false (fun _ => 0) seq 0 0), "10.0.0.1",
    "4000", 0, t, 0, fun _ => 0⟩

/-- A standard response numbered `seq`. -/
def response (seq : Nat) : List Byte :=
  BE32 seq ++ BE32 7 ++ BE64 10 ++ BE64 0 ++ BE64 11 ++ BE64 0

/-- With two requests outstanding, the response numbered 1 arrives twice and
the response numbered 2 arrives third. -/
def lateEnv (i : Nat) : Client.RecvInput :=
  ⟨fun _ => 0, some (if i < 2 then response 1 else response 2), 12, 0⟩

end Scenario

/-! ## Lemmas on representations -/

theorem toLE_length (k x : Nat) : (toLE k x).length = k := by
  induction k generalizing x with
  | zero => rfl
  | succ k ih => simp [toLE, ih]

theorem toBE_length (k x : Nat) : (toBE k x).length = k := by
  simp [toBE, toLE_length]

theorem store_length (e : Endian) (k x : Nat) : (store e k x).length = k := by
  cases e <;> simp [store, toLE_length, toBE_length]

theorem ofLE_toLE (k x : Nat) : ofLE (toLE k x) = x % 256 ^ k := by
  induction k generalizing x with
  | zero => simp [toLE, ofLE, Nat.mod_one]
  | succ k ih =>
    simp only [toLE, ofLE, ih, lowByte]
    rw [pow_succ, Nat.mul_comm (256 ^ k) 256, Nat.mod_mul]

theorem toLE_ofLE (bs : List Byte) : toLE bs.length (ofLE bs) = bs := by
  induction bs with
  | nil => rfl
  | cons b bs ih =>
    have hb : b.val < 256 := b.isLt
    have h1 : (b.val + 256 * ofLE bs) % 256 = b.val := by omega
    have h2 : (b.val + 256 * ofLE bs) / 256 = ofLE bs := by omega
    simp only [List.length_cons, toLE, ofLE, h2, ih, lowByte, h1]

theorem ofLE_lt (bs : List Byte) : ofLE bs < 256 ^ bs.length := by
  induction bs with
  | nil => simp [ofLE]
  | cons b bs ih =>
    have hb : b.val < 256 := b.isLt
    simp only [ofLE, List.length_cons, pow_succ]
    omega

theorem toLE_mod (k x : Nat) : toLE k (x % 256 ^ k) = toLE k x := by
  have h := toLE_ofLE (toLE k x)
  rw [toLE_length, ofLE_toLE] at h
  exact h

/-- Storing a value brought to network order writes its octets most
significant first, whatever the host. -/
theorem store_hton (e : Endian) (k x : Nat) : store e k (hton e k x) = toBE k x := by
  cases e with
  | little =>
    have h := toLE_ofLE (toBE k x)
    rw [toBE_length] at h
    simpa [store, hton, bswap] using h
  | big => simp [store, hton, toBE, toLE_mod]

/-- Loading octets and bringing the value to host order reads them most
significant first, whatever the host. -/
theorem hton_load (e : Endian) (bs : List Byte) :
    hton e bs.length (load e bs) = ofBE bs := by
  cases e with
  | little =>
    simp only [hton, load, bswap, toBE, toLE_ofLE, ofBE]
  | big =>
    have h := ofLE_lt bs.reverse
    rw [List.length_reverse] at h
    simp only [hton, load, ofBE, Nat.mod_eq_of_lt h]

/-- Storing what was loaded from `bs` gives `bs` back. -/
theorem store_load (e : Endian) (bs : List Byte) : store e bs.length (load e bs) = bs := by
  cases e with
  | little => simp [store, load, toLE_ofLE]
  | big =>
    have h := toLE_ofLE bs.reverse
    rw [List.length_reverse] at h
    simp [store, load, toBE, ofBE, h]

theorem ofBE_toBE (k x : Nat) : ofBE (toBE k x) = x % 256 ^ k := by
  simp [ofBE, toBE, ofLE_toLE]

theorem toBE_ofBE (bs : List Byte) : toBE bs.length (ofBE bs) = bs := by
  have h := toLE_ofLE bs.reverse
  rw [List.length_reverse] at h
  simp [toBE, ofBE, h]

theorem toBE_two (x : Nat) : toBE 2 x = BE16 x := by
  simp [toBE, toLE, BE16]

theorem toBE_four (x : Nat) : toBE 4 x = BE32 x := by
  simp [toBE, toLE, BE32, Nat.div_div_eq_div_mul]

theorem toBE_eight (x : Nat) : toBE 8 x = BE64 x := by
  simp [toBE, toLE, BE64, Nat.div_div_eq_div_mul]

/-! ## Lemmas on the conversion functions -/

theorem store_htonl (e : Endian) (x : Nat) : store e 4 (htonl e x) = BE32 x := by
  rw [htonl, store_hton, toBE_four]

theorem store_htons (e : Endian) (x : Nat) : store e 2 (htons e x) = BE16 x := by
  rw [htons, store_hton, toBE_two]

theorem store_htobe64 (e : Endian) (x : Nat) : store e 8 (htobe64 e x) = BE64 x := by
  rw [htobe64, store_hton, toBE_eight]

theorem ntohl_load (e : Endian) (bs : List Byte) (h : bs.length = 4) :
    ntohl e (load e bs) = ofBE bs := by
  rw [ntohl, ← h, hton_load]

theorem be64toh_load (e : Endian) (bs : List Byte) (h : bs.length = 8) :
    be64toh e (load e bs) = ofBE bs := by
  rw [be64toh, ← h, hton_load]

theorem store_load_eight (e : Endian) (bs : List Byte) (h : bs.length = 8) :
    store e 8 (load e bs) = bs := by
  rw [← h, store_load]

theorem ofBE_BE32 (x : Nat) : ofBE (BE32 x) = x % 2 ^ 32 := by
  rw [← toBE_four, ofBE_toBE]; norm_num

theorem ofBE_BE64 (x : Nat) : ofBE (BE64 x) = x % 2 ^ 64 := by
  rw [← toBE_eight, ofBE_toBE]; norm_num

theorem BE16_length (x : Nat) : (BE16 x).length = 2 := rfl

theorem BE32_length (x : Nat) : (BE32 x).length = 4 := rfl

theorem BE64_length (x : Nat) : (BE64 x).length = 8 := rfl

/-! ## Lemmas on buffers -/

theorem freshBuffer_length (n : Nat) (stale : Nat → Byte) : (freshBuffer n stale).length = n := by
  simp [freshBuffer]

theorem memcpy_zero (buf src : List Byte) : memcpy buf 0 src = src ++ buf.drop src.length := by
  simp [memcpy]

theorem memcpy_append (p r s : List Byte) (off : Nat) (h : p.length = off) :
    memcpy (p ++ r) off s = (p ++ s) ++ r.drop s.length := by
  subst h
  simp [memcpy, List.drop_append]

theorem recvInto_eq (buf d : List Byte) (cap : Nat) :
    recvInto buf cap d = d.take cap ++ buf.drop (min cap d.length) := by
  simp [recvInto, memcpy]

theorem recvInto_full (buf d : List Byte) (cap : Nat) (hb : buf.length = cap)
    (hd : cap ≤ d.length) : recvInto buf cap d = d.take cap := by
  rw [recvInto_eq, Nat.min_eq_left hd, List.drop_of_length_le (by omega), List.append_nil]

theorem readAt_length (buf : List Byte) (off k : Nat) (h : off + k ≤ buf.length) :
    (readAt buf off k).length = k := by
  simp [readAt]
  omega

theorem readAt_take (buf : List Byte) (n off k : Nat) (h : off + k ≤ n) :
    readAt (buf.take n) off k = readAt buf off k := by
  unfold readAt
  rw [List.drop_take, List.take_take, Nat.min_eq_left (by omega)]

/-! ## The frames the two encoders write -/

theorem four_fields (buf a b c d : List Byte) (n : Nat)
    (hn : a.length + b.length + c.length + d.length = n) :
    (memcpy (memcpy (memcpy (memcpy buf 0 a) a.length b) (a.length + b.length) c)
      (a.length + b.length + c.length) d).take n = a ++ b ++ c ++ d := by
  rw [memcpy_zero, memcpy_append _ _ _ _ rfl, memcpy_append _ _ _ _ (by simp),
    memcpy_append _ _ _ _ (by simp; omega)]
  rw [List.take_append_of_le_length (by simp; omega), List.take_of_length_le (by simp; omega)]

theorem six_fields (buf a b c d f g : List Byte) (n : Nat)
    (hn : a.length + b.length + c.length + d.length + f.length + g.length = n) :
    (memcpy (memcpy (memcpy (memcpy (memcpy (memcpy buf 0 a) a.length b) (a.length + b.length) c)
      (a.length + b.length + c.length) d) (a.length + b.length + c.length + d.length) f)
      (a.length + b.length + c.length + d.length + f.length) g).take n
      = a ++ b ++ c ++ d ++ f ++ g := by
  rw [memcpy_zero, memcpy_append _ _ _ _ rfl, memcpy_append _ _ _ _ (by simp),
    memcpy_append _ _ _ _ (by simp; omega), memcpy_append _ _ _ _ (by simp; omega),
    memcpy_append _ _ _ _ (by simp; omega)]
  rw [List.take_append_of_le_length (by simp; omega), List.take_of_length_le (by simp; omega)]

theorem Client.encodeRequest_eq (e : Endian) (condensed : Bool) (stale : Nat → Byte)
    (seq sec nsec : Nat) :
    Client.encodeRequest e condensed stale seq sec nsec
      = BE32 seq ++ versionField condensed ++ BE64 sec ++ BE64 nsec := by
  cases condensed
  · have h := four_fields (freshBuffer 24 stale) (BE32 seq) (BE32 7) (BE64 sec) (BE64 nsec) 24
      rfl
    simpa [Client.encodeRequest, Client.send_len, Client.SEND_BUFFER_SIZE, store_htonl,
      store_htobe64, versionField, BE32_length, BE64_length] using h
  · have h := four_fields (freshBuffer 22 stale) (BE32 seq) (BE16 7) (BE64 sec) (BE64 nsec) 22
      rfl
    simpa [Client.encodeRequest, Client.send_len, Client.SEND_BUFFER_SIZE, store_htonl,
      store_htons, store_htobe64, versionField, BE32_length, BE16_length, BE64_length] using h

theorem Server.encodeResponse_eq (e : Endian) (condensed : Bool) (stale : Nat → Byte)
    (d : Server.Decoded) (tv_sec tv_nsec : Nat) :
    Server.encodeResponse e condensed stale d tv_sec tv_nsec
      = BE32 d.client_seq ++ versionField condensed ++ store e 8 d.csec_nb
          ++ store e 8 d.cnsec_nb ++ BE64 tv_sec ++ BE64 tv_nsec := by
  cases condensed
  · have h := six_fields (freshBuffer 40 stale) (BE32 d.client_seq) (BE32 7)
      (store e 8 d.csec_nb) (store e 8 d.cnsec_nb) (BE64 tv_sec) (BE64 tv_nsec) 40
      (by simp [store_length, BE32_length, BE64_length])
    simpa [Server.encodeResponse, Server.send_len, Server.SEND_BUFFER_SIZE, store_htonl,
      store_htobe64, versionField, BE32_length, BE64_length, store_length] using h
  · have h := six_fields (freshBuffer 38 stale) (BE32 d.client_seq) (BE16 7)
      (store e 8 d.csec_nb) (store e 8 d.cnsec_nb) (BE64 tv_sec) (BE64 tv_nsec) 38
      (by simp [store_length, BE32_length, BE16_length, BE64_length])
    simpa [Server.encodeResponse, Server.send_len, Server.SEND_BUFFER_SIZE, store_htonl,
      store_htons, store_htobe64, versionField, BE32_length, BE16_length, BE64_length,
      store_length] using h

theorem readAt_add (buf : List Byte) (off k1 k2 : Nat) :
    readAt buf off (k1 + k2) = readAt buf off k1 ++ readAt buf (off + k1) k2 := by
  unfold readAt
  rw [List.take_add, List.drop_drop]

theorem Server.requestBuffer_full (condensed : Bool) (stale : Nat → Byte) (d : List Byte)
    (h : Server.recv_len condensed ≤ d.length) :
    Server.recvBuffer condensed stale d = d.take (Server.recv_len condensed) :=
  recvInto_full _ _ _ (freshBuffer_length _ _) h

theorem Client.responseBuffer_full (condensed : Bool) (stale : Nat → Byte) (d : List Byte)
    (h : Client.recv_len condensed ≤ d.length) :
    Client.recvBuffer condensed stale d = d.take (Client.recv_len condensed) :=
  recvInto_full _ _ _ (freshBuffer_length _ _) h

theorem Server.decodeRequest_full (e : Endian) (condensed : Bool) (stale : Nat → Byte)
    (d : List Byte) (h : Server.recv_len condensed ≤ d.length) :
    let req := Server.decodeRequest e condensed (Server.recvBuffer condensed stale d)
    req.client_seq = ofBE (readAt d 0 4)
      ∧ store e 8 req.csec_nb = readAt d (if condensed then 6 else 8) 8
      ∧ store e 8 req.cnsec_nb = readAt d (if condensed then 14 else 16) 8 := by
  rw [Server.requestBuffer_full _ _ _ h]
  cases condensed <;>
    simp only [Server.recv_len, Server.RECV_BUFFER_SIZE, Bool.false_eq_true, if_false, if_true,
      Server.decodeRequest] at h ⊢
  · rw [readAt_take _ _ _ _ (by omega), readAt_take _ _ _ _ (by omega),
      readAt_take _ _ _ _ (by omega)]
    exact ⟨ntohl_load _ _ (readAt_length _ _ _ (by omega)),
      store_load_eight _ _ (readAt_length _ _ _ (by omega)),
      store_load_eight _ _ (readAt_length _ _ _ (by omega))⟩
  · rw [readAt_take _ _ _ _ (by omega), readAt_take _ _ _ _ (by omega),
      readAt_take _ _ _ _ (by omega)]
    exact ⟨ntohl_load _ _ (readAt_length _ _ _ (by omega)),
      store_load_eight _ _ (readAt_length _ _ _ (by omega)),
      store_load_eight _ _ (readAt_length _ _ _ (by omega))⟩

theorem Client.decodeResponse_full (e : Endian) (condensed : Bool) (stale : Nat → Byte)
    (d : List Byte) (h : Client.recv_len condensed ≤ d.length) :
    Client.decodeResponse e condensed (Client.recvBuffer condensed stale d)
      = { seq := ofBE (readAt d 0 4)
          client_sec1 := ofBE (readAt d (if condensed then 6 else 8) 8)
          client_nsec1 := ofBE (readAt d (if condensed then 14 else 16) 8)
          serv_sec := ofBE (readAt d (if condensed then 22 else 24) 8)
          serv_nsec := ofBE (readAt d (if condensed then 30 else 32) 8) } := by
  rw [Client.responseBuffer_full _ _ _ h]
  cases condensed <;>
    simp only [Client.recv_len, Client.RECV_BUFFER_SIZE, Bool.false_eq_true, if_false, if_true,
      Client.decodeResponse] at h ⊢
  · rw [readAt_take _ _ _ _ (by omega), readAt_take _ _ _ _ (by omega),
      readAt_take _ _ _ _ (by omega), readAt_take _ _ _ _ (by omega),
      readAt_take _ _ _ _ (by omega)]
    rw [ntohl_load _ _ (readAt_length _ _ _ (by omega)),
      be64toh_load _ _ (readAt_length _ _ _ (by omega)),
      be64toh_load _ _ (readAt_length _ _ _ (by omega)),
      be64toh_load _ _ (readAt_length _ _ _ (by omega)),
      be64toh_load _ _ (readAt_length _ _ _ (by omega))]
  · rw [readAt_take _ _ _ _ (by omega), readAt_take _ _ _ _ (by omega),
      readAt_take _ _ _ _ (by omega), readAt_take _ _ _ _ (by omega),
      readAt_take _ _ _ _ (by omega)]
    rw [ntohl_load _ _ (readAt_length _ _ _ (by omega)),
      be64toh_load _ _ (readAt_length _ _ _ (by omega)),
      be64toh_load _ _ (readAt_length _ _ _ (by omega)),
      be64toh_load _ _ (readAt_length _ _ _ (by omega)),
      be64toh_load _ _ (readAt_length _ _ _ (by omega))]

theorem requestFrame_length (condensed : Bool) (seq sec nsec : Nat) :
    (BE32 seq ++ versionField condensed ++ BE64 sec ++ BE64 nsec).length
      = if condensed then 22 else 24 := by
  cases condensed <;> rfl

theorem Server.step_sent (e : Endian) (args : Server.Args) (clients : List Server.Node)
    (inp : Server.Input) (d : List Byte) (hrecv : inp.recv = some d)
    (hkeep : Server.dropped args inp.rand = false) :
    Server.step e args clients inp
      = { clients := (Server.update_clients clients inp.addr inp.port
            (toInt32 (Server.decodeRequest e args.condensed
              (Server.recvBuffer args.condensed inp.stale d)).client_seq) inp.tv_sec).1
          sent := some (Server.encodeResponse e args.condensed inp.stale_out
            (Server.decodeRequest e args.condensed (Server.recvBuffer args.condensed inp.stale d))
            inp.tv_sec inp.tv_nsec)
          log := (Server.update_clients clients inp.addr inp.port
            (toInt32 (Server.decodeRequest e args.condensed
              (Server.recvBuffer args.condensed inp.stale d)).client_seq) inp.tv_sec).2 } := by
  simp [Server.step, hrecv, hkeep]

/-! ## The wire format -/

/-- C1: the frame built by iteration `i` of the client send loop is
`BE32(i+1) ++ V ++ BE64(sec) ++ BE64(nsec)` with `V = BE32(7)` (standard) or
`BE16(7)` (condensed); it has 24 or 22 octets; the loop sends `N` frames, which
carry the sequence numbers `1, ..., N` in that order.  The request count is a
C `int`, hence below `2 ^ 31`. -/
theorem C1_request_frames (e : Endian) (condensed : Bool) (N : Nat)
    (env : Nat → Client.SendInput) (hN : N < 2 ^ 31) :
    (Client.sendLoop e condensed N env).length = N
      ∧ (∀ i, i < N →
          (Client.sendLoop e condensed N env)[i]?
            = some (BE32 (i + 1) ++ (if condensed then BE16 7 else BE32 7)
                ++ BE64 (env i).sec ++ BE64 (env i).nsec))
      ∧ (∀ f ∈ Client.sendLoop e condensed N env, f.length = if condensed then 22 else 24)
      ∧ (Client.sendLoop e condensed N env).map (fun f => ofBE (readAt f 0 4))
          = List.range' 1 N := by
  refine ⟨by simp [Client.sendLoop], ?_, ?_, ?_⟩
  · intro i hi
    simp [Client.sendLoop, Client.sendIteration, Client.encodeRequest_eq, versionField, hi]
  · intro f hf
    simp only [Client.sendLoop, List.mem_map, List.mem_range] at hf
    obtain ⟨i, _, rfl⟩ := hf
    rw [Client.sendIteration, Client.encodeRequest_eq, requestFrame_length]
  · rw [List.range'_eq_map_range, Client.sendLoop, List.map_map]
    apply List.map_congr_left
    intro i hi
    have hi' : i < N := List.mem_range.mp hi
    have hread : readAt (Client.sendIteration e condensed env i) 0 4 = BE32 (i + 1) := by
      rw [Client.sendIteration, Client.encodeRequest_eq]
      cases condensed <;> simp [readAt, BE32, BE16, BE64, versionField]
    simp only [Function.comp, hread, ofBE_BE32]
    omega

/-- Witness of C1 on a little-endian host: three standard requests. -/
theorem C1_request_frames_witness :
    (3 : Nat) < 2 ^ 31 ∧ (Client.sendLoop .little false 3 (fun _ => ⟨fun _ => 0, 5, 6⟩)).length = 3
      ∧ (∀ i, i < 3 →
          (Client.sendLoop .little false 3 (fun _ => ⟨fun _ => 0, 5, 6⟩))[i]?
            = some (BE32 (i + 1) ++ (if false then BE16 7 else BE32 7) ++ BE64 5 ++ BE64 6))
      ∧ (∀ f ∈ Client.sendLoop .little false 3 (fun _ => ⟨fun _ => 0, 5, 6⟩),
          f.length = if false then 22 else 24)
      ∧ (Client.sendLoop .little false 3 (fun _ => ⟨fun _ => 0, 5, 6⟩)).map
          (fun f => ofBE (readAt f 0 4)) = List.range' 1 3 :=
  ⟨by decide, C1_request_frames .little false 3 (fun _ => ⟨fun _ => 0, 5, 6⟩) (by decide)⟩

theorem responseFrame_length (condensed : Bool) (seq sec nsec ssec snsec : Nat) :
    (BE32 seq ++ versionField condensed ++ BE64 sec ++ BE64 nsec ++ BE64 ssec
      ++ BE64 snsec).length = if condensed then 38 else 40 := by
  cases condensed <;> rfl

theorem BE32_ofBE (bs : List Byte) (h : bs.length = 4) : BE32 (ofBE bs) = bs := by
  rw [← toBE_four, ← h, toBE_ofBE]

/-- C2: for a request datagram of full length that the loss decision lets
through, the datagram the server sends is
`BE32(seq) ++ V ++ D ++ BE64(ssec) ++ BE64(snsec)`, where `seq` is read from
octets 0..3 of the request, `V` is the version field of the format and `D` is
the 16 octets of the request at offset 8 (standard) or 6 (condensed); it has 40
or 38 octets. -/
theorem C2_response_frame (e : Endian) (args : Server.Args) (clients : List Server.Node)
    (inp : Server.Input) (d : List Byte) (hrecv : inp.recv = some d)
    (hlen : d.length = Server.recv_len args.condensed)
    (hkeep : Server.dropped args inp.rand = false) :
    ∃ resp, (Server.step e args clients inp).sent = some resp
      ∧ resp = BE32 (ofBE (readAt d 0 4)) ++ (if args.condensed then BE16 7 else BE32 7)
          ++ readAt d (if args.condensed then 6 else 8) 16
          ++ BE64 inp.tv_sec ++ BE64 inp.tv_nsec
      ∧ resp.length = if args.condensed then 38 else 40 := by
  obtain ⟨h1, h2, h3⟩ := Server.decodeRequest_full e args.condensed inp.stale d (le_of_eq hlen.symm)
  have hframe : Server.encodeResponse e args.condensed inp.stale_out
      (Server.decodeRequest e args.condensed (Server.recvBuffer args.condensed inp.stale d))
      inp.tv_sec inp.tv_nsec
      = BE32 (ofBE (readAt d 0 4)) ++ (if args.condensed then BE16 7 else BE32 7)
          ++ readAt d (if args.condensed then 6 else 8) 16
          ++ BE64 inp.tv_sec ++ BE64 inp.tv_nsec := by
    rw [Server.encodeResponse_eq, h1, h2, h3, readAt_add _ _ 8 8]
    cases args.condensed <;> simp [versionField]
  refine ⟨_, by rw [Server.step_sent e args clients inp d hrecv hkeep], hframe, ?_⟩
  rw [hframe]
  have h4 : (readAt d 0 4).length = 4 := by
    apply readAt_length
    cases hc : args.condensed <;> simp [hc, Server.recv_len, Server.RECV_BUFFER_SIZE] at hlen <;>
      omega
  have h16 : (readAt d (if args.condensed then 6 else 8) 16).length = 16 := by
    apply readAt_length
    cases hc : args.condensed <;> simp [hc, Server.recv_len, Server.RECV_BUFFER_SIZE] at hlen ⊢ <;>
      omega
  cases hc : args.condensed <;> simp [hc] at h16 ⊢ <;>
    simp [h16, BE32_length, BE64_length, BE16_length]

/-- Witness of C2: a standard request of 24 zero octets, nothing dropped. -/
theorem C2_response_frame_witness :
    ((⟨fun _ => 0, some (List.replicate 24 0), "10.0.0.1", "4000", 5, 100, 200,
          fun _ => 0⟩ : Server.Input).recv = some (List.replicate 24 0)
        ∧ (List.replicate 24 (0 : Byte)).length = Server.recv_len false
        ∧ Server.dropped ⟨0, false⟩ 5 = false)
      ∧ ∃ resp, (Server.step .little ⟨0, false⟩ []
          ⟨fun _ => 0, some (List.replicate 24 0), "10.0.0.1", "4000", 5, 100, 200,
            fun _ => 0⟩).sent = some resp
        ∧ resp = BE32 (ofBE (readAt (List.replicate 24 0) 0 4))
            ++ (if (⟨0, false⟩ : Server.Args).condensed then BE16 7 else BE32 7)
            ++ readAt (List.replicate 24 0)
                (if (⟨0, false⟩ : Server.Args).condensed then 6 else 8) 16
            ++ BE64 100 ++ BE64 200
        ∧ resp.length = if (⟨0, false⟩ : Server.Args).condensed then 38 else 40 :=
  ⟨⟨rfl, by decide, by decide⟩,
    C2_response_frame .little ⟨0, false⟩ []
      ⟨fun _ => 0, some (List.replicate 24 0), "10.0.0.1", "4000", 5, 100, 200, fun _ => 0⟩
      (List.replicate 24 0) rfl (by decide) (by decide)⟩

theorem hton_eq_ofBE_store (e : Endian) (k x : Nat) : hton e k x = ofBE (store e k x) := by
  cases e with
  | little => simp [hton, store, bswap, ofBE, toBE]
  | big => simp [hton, store, ofBE_toBE]

theorem Server.decodeRequest_frame (e : Endian) (condensed : Bool) (stale : Nat → Byte)
    (seq sec nsec : Nat) :
    let req := Server.decodeRequest e condensed
      (Server.recvBuffer condensed stale (BE32 seq ++ versionField condensed ++ BE64 sec ++ BE64 nsec))
    req.client_seq = seq % 2 ^ 32 ∧ store e 8 req.csec_nb = BE64 sec
      ∧ store e 8 req.cnsec_nb = BE64 nsec := by
  have hlen : Server.recv_len condensed
      ≤ (BE32 seq ++ versionField condensed ++ BE64 sec ++ BE64 nsec).length := by
    rw [requestFrame_length]
    cases condensed <;> decide
  obtain ⟨h1, h2, h3⟩ := Server.decodeRequest_full e condensed stale _ hlen
  refine ⟨?_, ?_, ?_⟩
  · rw [h1, ← ofBE_BE32]
    cases condensed <;> simp [readAt, BE32, BE16, BE64, versionField]
  · rw [h2]
    cases condensed <;> simp [readAt, BE32, BE16, BE64, versionField]
  · rw [h3]
    cases condensed <;> simp [readAt, BE32, BE16, BE64, versionField]

theorem BE32_mod (x : Nat) : BE32 (x % 2 ^ 32) = BE32 x := by
  rw [← ofBE_BE32, BE32_ofBE _ (BE32_length x)]

theorem Server.response_to_request (e : Endian) (condensed : Bool) (stale stale_out : Nat → Byte)
    (seq sec nsec tv_sec tv_nsec : Nat) :
    Server.encodeResponse e condensed stale_out
      (Server.decodeRequest e condensed
        (Server.recvBuffer condensed stale
          (BE32 seq ++ versionField condensed ++ BE64 sec ++ BE64 nsec))) tv_sec tv_nsec
      = BE32 seq ++ versionField condensed ++ BE64 sec ++ BE64 nsec ++ BE64 tv_sec
          ++ BE64 tv_nsec := by
  obtain ⟨h1, h2, h3⟩ := Server.decodeRequest_frame e condensed stale seq sec nsec
  rw [Server.encodeResponse_eq, h1, h2, h3, BE32_mod]

theorem Client.decodeResponse_frame (e : Endian) (condensed : Bool) (stale : Nat → Byte)
    (seq sec nsec ssec snsec : Nat) :
    Client.decodeResponse e condensed
      (Client.recvBuffer condensed stale
        (BE32 seq ++ versionField condensed ++ BE64 sec ++ BE64 nsec ++ BE64 ssec ++ BE64 snsec))
      = { seq := seq % 2 ^ 32, client_sec1 := sec % 2 ^ 64, client_nsec1 := nsec % 2 ^ 64,
          serv_sec := ssec % 2 ^ 64, serv_nsec := snsec % 2 ^ 64 } := by
  have hlen : Client.recv_len condensed
      ≤ (BE32 seq ++ versionField condensed ++ BE64 sec ++ BE64 nsec ++ BE64 ssec
          ++ BE64 snsec).length := by
    rw [responseFrame_length]
    cases condensed <;> decide
  rw [Client.decodeResponse_full e condensed stale _ hlen, ← ofBE_BE32, ← ofBE_BE64 sec,
    ← ofBE_BE64 nsec, ← ofBE_BE64 ssec, ← ofBE_BE64 snsec]
  cases condensed <;> simp [readAt, BE32, BE16, BE64, versionField]

/-- C3: the server, decoding in the same format the request the client encodes
for `(seq, sec, nsec)`, reads the sequence number `seq`; the two time fields it
keeps (in network order) have the representations `BE64(sec)` and `BE64(nsec)`
and convert to `sec` and `nsec`. -/
theorem C3_request_round_trip (e : Endian) (condensed : Bool) (stale stale_srv : Nat → Byte)
    (seq sec nsec : Nat) (hseq : seq < 2 ^ 32) (hsec : sec < 2 ^ 64) (hnsec : nsec < 2 ^ 64) :
    (Server.decodeRequest e condensed (Server.recvBuffer condensed stale_srv
        (Client.encodeRequest e condensed stale seq sec nsec))).client_seq = seq
      ∧ store e 8 (Server.decodeRequest e condensed (Server.recvBuffer condensed stale_srv
          (Client.encodeRequest e condensed stale seq sec nsec))).csec_nb = BE64 sec
      ∧ store e 8 (Server.decodeRequest e condensed (Server.recvBuffer condensed stale_srv
          (Client.encodeRequest e condensed stale seq sec nsec))).cnsec_nb = BE64 nsec
      ∧ be64toh e (Server.decodeRequest e condensed (Server.recvBuffer condensed stale_srv
          (Client.encodeRequest e condensed stale seq sec nsec))).csec_nb = sec
      ∧ be64toh e (Server.decodeRequest e condensed (Server.recvBuffer condensed stale_srv
          (Client.encodeRequest e condensed stale seq sec nsec))).cnsec_nb = nsec := by
  rw [Client.encodeRequest_eq]
  obtain ⟨h1, h2, h3⟩ := Server.decodeRequest_frame e condensed stale_srv seq sec nsec
  refine ⟨?_, h2, h3, ?_, ?_⟩
  · rw [h1, Nat.mod_eq_of_lt hseq]
  · rw [be64toh, hton_eq_ofBE_store, h2, ofBE_BE64, Nat.mod_eq_of_lt hsec]
  · rw [be64toh, hton_eq_ofBE_store, h3, ofBE_BE64, Nat.mod_eq_of_lt hnsec]

/-- Witness of C3: the largest sequence number and a near-maximum second count,
condensed format, big-endian host. -/
theorem C3_request_round_trip_witness :
    (2 ^ 32 - 1 < 2 ^ 32 ∧ 2 ^ 64 - 2 < 2 ^ 64 ∧ 999999999 < 2 ^ 64)
      ∧ (Server.decodeRequest .big true (Server.recvBuffer true (fun _ => 0)
          (Client.encodeRequest .big true (fun _ => 0) (2 ^ 32 - 1) (2 ^ 64 - 2)
            999999999))).client_seq = 2 ^ 32 - 1
      ∧ store .big 8 (Server.decodeRequest .big true (Server.recvBuffer true (fun _ => 0)
          (Client.encodeRequest .big true (fun _ => 0) (2 ^ 32 - 1) (2 ^ 64 - 2)
            999999999))).csec_nb = BE64 (2 ^ 64 - 2)
      ∧ store .big 8 (Server.decodeRequest .big true (Server.recvBuffer true (fun _ => 0)
          (Client.encodeRequest .big true (fun _ => 0) (2 ^ 32 - 1) (2 ^ 64 - 2)
            999999999))).cnsec_nb = BE64 999999999
      ∧ be64toh .big (Server.decodeRequest .big true (Server.recvBuffer true (fun _ => 0)
          (Client.encodeRequest .big true (fun _ => 0) (2 ^ 32 - 1) (2 ^ 64 - 2)
            999999999))).csec_nb = 2 ^ 64 - 2
      ∧ be64toh .big (Server.decodeRequest .big true (Server.recvBuffer true (fun _ => 0)
          (Client.encodeRequest .big true (fun _ => 0) (2 ^ 32 - 1) (2 ^ 64 - 2)
            999999999))).cnsec_nb = 999999999 :=
  ⟨by decide, C3_request_round_trip .big true (fun _ => 0) (fun _ => 0) (2 ^ 32 - 1)
    (2 ^ 64 - 2) 999999999 (by decide) (by decide) (by decide)⟩

/-- C4: when both sides use the same format, the client, decoding the response
the server builds from the client's request for `(seq, sec, nsec)` at server
time `(ssec, snsec)`, reads `seq`, the departure time `(sec, nsec)` and the
server time `(ssec, snsec)`. -/
theorem C4_end_to_end_echo (e : Endian) (args : Server.Args) (clients : List Server.Node)
    (inp : Server.Input) (stale stale_cli : Nat → Byte) (seq sec nsec : Nat)
    (hseq : seq < 2 ^ 32) (hsec : sec < 2 ^ 64) (hnsec : nsec < 2 ^ 64)
    (hssec : inp.tv_sec < 2 ^ 64) (hsnsec : inp.tv_nsec < 2 ^ 64)
    (hrecv : inp.recv = some (Client.encodeRequest e args.condensed stale seq sec nsec))
    (hkeep : Server.dropped args inp.rand = false) :
    ∃ resp, (Server.step e args clients inp).sent = some resp
      ∧ Client.decodeResponse e args.condensed (Client.recvBuffer args.condensed stale_cli resp)
          = { seq := seq, client_sec1 := sec, client_nsec1 := nsec,
              serv_sec := inp.tv_sec, serv_nsec := inp.tv_nsec } := by
  refine ⟨_, by rw [Server.step_sent e args clients inp _ hrecv hkeep], ?_⟩
  rw [Client.encodeRequest_eq, Server.response_to_request, Client.decodeResponse_frame,
    Nat.mod_eq_of_lt hseq, Nat.mod_eq_of_lt hsec, Nat.mod_eq_of_lt hnsec,
    Nat.mod_eq_of_lt hssec, Nat.mod_eq_of_lt hsnsec]

/-- Witness of C4: request 3 sent at `(10, 20)`, answered at `(30, 40)`,
standard format, little-endian host. -/
theorem C4_end_to_end_echo_witness :
    ((3 : Nat) < 2 ^ 32 ∧ (10 : Nat) < 2 ^ 64 ∧ (20 : Nat) < 2 ^ 64)
      ∧ ∃ resp, (Server.step .little ⟨0, false⟩ []
          ⟨fun _ => 0, some (Client.encodeRequest .little false (fun _ => 0) 3 10 20),
            "10.0.0.1", "4000", 5, 30, 40, fun _ => 0⟩).sent = some resp
        ∧ Client.decodeResponse .little false (Client.recvBuffer false (fun _ => 0) resp)
            = { seq := 3, client_sec1 := 10, client_nsec1 := 20, serv_sec := 30,
                serv_nsec := 40 } :=
  ⟨by decide, C4_end_to_end_echo .little ⟨0, false⟩ []
    ⟨fun _ => 0, some (Client.encodeRequest .little false (fun _ => 0) 3 10 20),
      "10.0.0.1", "4000", 5, 30, 40, fun _ => 0⟩ (fun _ => 0) (fun _ => 0) 3 10 20
    (by decide) (by decide) (by decide) (by decide) (by decide) rfl (by decide)⟩

/-! ## The result table of the client -/

theorem Client.processDatagram_frame (e : Endian) (condensed : Bool) (N : Nat)
    (stale : Nat → Byte) (seq sec nsec ssec snsec sec2 nsec2 : Nat)
    (responses : List Client.Response) :
    Client.processDatagram e condensed N stale
      (BE32 seq ++ versionField condensed ++ BE64 sec ++ BE64 nsec ++ BE64 ssec ++ BE64 snsec)
      sec2 nsec2 responses
      = Client.storeResult N
          { seq := seq % 2 ^ 32, client_sec1 := sec % 2 ^ 64, client_nsec1 := nsec % 2 ^ 64,
            serv_sec := ssec % 2 ^ 64, serv_nsec := snsec % 2 ^ 64 } sec2 nsec2 responses := by
  rw [Client.processDatagram, Client.decodeResponse_frame]

theorem Client.storeResult_length (N : Nat) (d : Client.Decoded) (sec2 nsec2 : Nat)
    (responses : List Client.Response) :
    (Client.storeResult N d sec2 nsec2 responses).length = responses.length := by
  unfold Client.storeResult
  split <;> simp

theorem Client.storeResult_in_range (N : Nat) (d : Client.Decoded) (sec2 nsec2 : Nat)
    (responses : List Client.Response) (hN : N < 2 ^ 31) (h1 : 1 ≤ d.seq) (h2 : d.seq ≤ N) :
    Client.storeResult N d sec2 nsec2 responses
      = responses.set (d.seq - 1)
          { seq := d.seq
            theta := ((Client.instant d.serv_sec d.serv_nsec
                        - Client.instant d.client_sec1 d.client_nsec1)
                      + (Client.instant d.serv_sec d.serv_nsec
                        - Client.instant sec2 nsec2)) / 2
            delta := Client.instant sec2 nsec2
                      - Client.instant d.client_sec1 d.client_nsec1 } := by
  have hmod : N % 2 ^ 32 = N := Nat.mod_eq_of_lt (by omega)
  have hcond : ¬ (d.seq = 0 ∨ d.seq > N % 2 ^ 32) := by
    rw [hmod]; omega
  simp only [Client.storeResult, hcond, if_false]

theorem Client.storeResult_out_of_range (N : Nat) (d : Client.Decoded) (sec2 nsec2 : Nat)
    (responses : List Client.Response) (h : d.seq = 0 ∨ d.seq > N) :
    Client.storeResult N d sec2 nsec2 responses = responses := by
  have hle : N % 2 ^ 32 ≤ N := Nat.mod_le _ _
  have hcond : d.seq = 0 ∨ d.seq > N % 2 ^ 32 := by omega
  simp only [Client.storeResult, hcond, if_true]

/-- C5: when a response for request `seq` carrying the departure time
`(sec0, nsec0)` and the server time `(sec1, nsec1)` arrives at `(sec2, nsec2)`,
the slot the client writes holds `theta = ((t1 - t0) + (t1 - t2)) / 2` and
`delta = t2 - t0` for `t = sec + nsec / 10 ^ 9`, over the rationals; both are
zero when the three instants coincide, and `theta` is negative when
`t1 < (t0 + t2) / 2`. -/
theorem C5_offset_estimator (e : Endian) (condensed : Bool) (N : Nat) (stale : Nat → Byte)
    (seq sec0 nsec0 sec1 nsec1 sec2 nsec2 : Nat) (responses : List Client.Response)
    (hN : N < 2 ^ 31) (hlen : responses.length = N) (h1 : 1 ≤ seq) (h2 : seq ≤ N)
    (hs0 : sec0 < 2 ^ 64) (hn0 : nsec0 < 2 ^ 64) (hs1 : sec1 < 2 ^ 64) (hn1 : nsec1 < 2 ^ 64) :
    ∃ r, (Client.processDatagram e condensed N stale
          (BE32 seq ++ versionField condensed ++ BE64 sec0 ++ BE64 nsec0 ++ BE64 sec1
            ++ BE64 nsec1) sec2 nsec2 responses)[seq - 1]? = some r
      ∧ r.theta = ((((sec1 : ℚ) + (nsec1 : ℚ) / 10 ^ 9) - ((sec0 : ℚ) + (nsec0 : ℚ) / 10 ^ 9))
          + (((sec1 : ℚ) + (nsec1 : ℚ) / 10 ^ 9) - ((sec2 : ℚ) + (nsec2 : ℚ) / 10 ^ 9))) / 2
      ∧ r.delta = ((sec2 : ℚ) + (nsec2 : ℚ) / 10 ^ 9) - ((sec0 : ℚ) + (nsec0 : ℚ) / 10 ^ 9)
      ∧ ((sec0 : ℚ) + (nsec0 : ℚ) / 10 ^ 9 = (sec1 : ℚ) + (nsec1 : ℚ) / 10 ^ 9 →
          (sec1 : ℚ) + (nsec1 : ℚ) / 10 ^ 9 = (sec2 : ℚ) + (nsec2 : ℚ) / 10 ^ 9 →
          r.theta = 0 ∧ r.delta = 0)
      ∧ ((sec1 : ℚ) + (nsec1 : ℚ) / 10 ^ 9
            < (((sec0 : ℚ) + (nsec0 : ℚ) / 10 ^ 9) + ((sec2 : ℚ) + (nsec2 : ℚ) / 10 ^ 9)) / 2 →
          r.theta < 0) := by
  have hseq : seq % 2 ^ 32 = seq := Nat.mod_eq_of_lt (by omega)
  rw [Client.processDatagram_frame, hseq, Nat.mod_eq_of_lt hs0, Nat.mod_eq_of_lt hn0,
    Nat.mod_eq_of_lt hs1, Nat.mod_eq_of_lt hn1,
    Client.storeResult_in_range N _ sec2 nsec2 responses hN h1 h2]
  refine ⟨_, List.getElem?_set_eq_of_lt _ (by simp only []; omega), ?_, ?_, ?_, ?_⟩
  · simp only [Client.instant]; norm_num
  · simp only [Client.instant]; norm_num
  · intro h01 h12
    simp only [Client.instant]
    norm_num at h01 h12 ⊢
    constructor <;> linarith
  · intro hlt
    simp only [Client.instant]
    norm_num at hlt ⊢
    linarith

/-- Witness of C5: request 1 of 2, sent at 10 s, answered at 12.5 s, received at 11 s. -/
theorem C5_offset_estimator_witness :
    ((2 : Nat) < 2 ^ 31 ∧ (Client.emptyTable 2).length = 2 ∧ 1 ≤ 1 ∧ 1 ≤ 2)
      ∧ ∃ r, (Client.processDatagram .little false 2 (fun _ => 0)
          (BE32 1 ++ versionField false ++ BE64 10 ++ BE64 0 ++ BE64 12 ++ BE64 500000000)
            11 0 (Client.emptyTable 2))[1 - 1]? = some r
        ∧ r.theta = ((((12 : Nat) : ℚ) + ((500000000 : Nat) : ℚ) / 10 ^ 9)
              - (((10 : Nat) : ℚ) + ((0 : Nat) : ℚ) / 10 ^ 9)
            + ((((12 : Nat) : ℚ) + ((500000000 : Nat) : ℚ) / 10 ^ 9)
              - (((11 : Nat) : ℚ) + ((0 : Nat) : ℚ) / 10 ^ 9))) / 2
        ∧ r.delta = (((11 : Nat) : ℚ) + ((0 : Nat) : ℚ) / 10 ^ 9)
            - (((10 : Nat) : ℚ) + ((0 : Nat) : ℚ) / 10 ^ 9)
        ∧ ((((10 : Nat) : ℚ) + ((0 : Nat) : ℚ) / 10 ^ 9
              = ((12 : Nat) : ℚ) + ((500000000 : Nat) : ℚ) / 10 ^ 9) →
            (((12 : Nat) : ℚ) + ((500000000 : Nat) : ℚ) / 10 ^ 9
              = ((11 : Nat) : ℚ) + ((0 : Nat) : ℚ) / 10 ^ 9) →
            r.theta = 0 ∧ r.delta = 0)
        ∧ ((((12 : Nat) : ℚ) + ((500000000 : Nat) : ℚ) / 10 ^ 9)
              < ((((10 : Nat) : ℚ) + ((0 : Nat) : ℚ) / 10 ^ 9)
                + (((11 : Nat) : ℚ) + ((0 : Nat) : ℚ) / 10 ^ 9)) / 2 →
            r.theta < 0) :=
  ⟨⟨by decide, rfl, le_refl 1, by decide⟩,
    C5_offset_estimator .little false 2 (fun _ => 0) 1 10 0 12 500000000 11 0
      (Client.emptyTable 2) (by decide) rfl (le_refl 1) (by decide) (by decide) (by decide)
      (by decide) (by decide)⟩

/-- C8: a response whose decoded sequence number is 0 or exceeds the request
count `N` leaves the whole result table as it was; with `N = 0` every response
is such a response and the table stays as it was. -/
theorem C8_out_of_range_discarded (e : Endian) (condensed : Bool) (N : Nat)
    (stale : Nat → Byte) (dgram : List Byte) (sec2 nsec2 : Nat)
    (responses : List Client.Response)
    (h : (Client.decodeResponse e condensed (Client.recvBuffer condensed stale dgram)).seq = 0
      ∨ (Client.decodeResponse e condensed (Client.recvBuffer condensed stale dgram)).seq > N) :
    Client.processDatagram e condensed N stale dgram sec2 nsec2 responses = responses
      ∧ Client.processDatagram e condensed 0 stale dgram sec2 nsec2 responses = responses := by
  refine ⟨Client.storeResult_out_of_range N _ sec2 nsec2 responses h, ?_⟩
  apply Client.storeResult_out_of_range
  omega

/-- Witness of C8: with three requests, a response numbered 4 changes nothing. -/
theorem C8_out_of_range_discarded_witness :
    ((Client.decodeResponse .little false (Client.recvBuffer false (fun _ => 0)
          (BE32 4 ++ BE32 7 ++ BE64 1 ++ BE64 2 ++ BE64 3 ++ BE64 4))).seq = 0
        ∨ (Client.decodeResponse .little false (Client.recvBuffer false (fun _ => 0)
          (BE32 4 ++ BE32 7 ++ BE64 1 ++ BE64 2 ++ BE64 3 ++ BE64 4))).seq > 3)
      ∧ Client.processDatagram .little false 3 (fun _ => 0)
          (BE32 4 ++ BE32 7 ++ BE64 1 ++ BE64 2 ++ BE64 3 ++ BE64 4) 5 6 (Client.emptyTable 3)
          = Client.emptyTable 3
      ∧ Client.processDatagram .little false 0 (fun _ => 0)
          (BE32 4 ++ BE32 7 ++ BE64 1 ++ BE64 2 ++ BE64 3 ++ BE64 4) 5 6 (Client.emptyTable 3)
          = Client.emptyTable 3 :=
  ⟨by decide,
    C8_out_of_range_discarded .little false 3 (fun _ => 0)
      (BE32 4 ++ BE32 7 ++ BE64 1 ++ BE64 2 ++ BE64 3 ++ BE64 4) 5 6 (Client.emptyTable 3)
      (by decide)⟩

/-- C9: a response whose decoded sequence number `seq` satisfies
`1 ≤ seq ≤ N` writes slot `seq - 1`, which lies inside the table of length `N`;
the slot becomes `(seq, theta, delta)` of this response whatever it held, and
every other slot keeps its value. -/
theorem C9_in_range_updates_one_slot (N : Nat) (d : Client.Decoded) (sec2 nsec2 : Nat)
    (responses : List Client.Response) (hN : N < 2 ^ 31) (hlen : responses.length = N)
    (h1 : 1 ≤ d.seq) (h2 : d.seq ≤ N) :
    d.seq - 1 < N
      ∧ (Client.storeResult N d sec2 nsec2 responses).length = N
      ∧ (Client.storeResult N d sec2 nsec2 responses)[d.seq - 1]?
          = some { seq := d.seq
                   theta := ((((d.serv_sec : ℚ) + (d.serv_nsec : ℚ) / 10 ^ 9)
                              - ((d.client_sec1 : ℚ) + (d.client_nsec1 : ℚ) / 10 ^ 9))
                            + (((d.serv_sec : ℚ) + (d.serv_nsec : ℚ) / 10 ^ 9)
                              - ((sec2 : ℚ) + (nsec2 : ℚ) / 10 ^ 9))) / 2
                   delta := ((sec2 : ℚ) + (nsec2 : ℚ) / 10 ^ 9)
                            - ((d.client_sec1 : ℚ) + (d.client_nsec1 : ℚ) / 10 ^ 9) }
      ∧ ∀ j, j ≠ d.seq - 1 →
          (Client.storeResult N d sec2 nsec2 responses)[j]? = responses[j]? := by
  refine ⟨by omega, by rw [Client.storeResult_length, hlen], ?_, ?_⟩
  · rw [Client.storeResult_in_range N d sec2 nsec2 responses hN h1 h2,
      List.getElem?_set_eq_of_lt _ (by omega)]
    simp only [Client.instant]
    norm_num
  · intro j hj
    rw [Client.storeResult_in_range N d sec2 nsec2 responses hN h1 h2,
      List.getElem?_set_ne (Ne.symm hj)]

/-- Witness of C9: response 2 of 3 on a zeroed table. -/
theorem C9_in_range_updates_one_slot_witness :
    ((3 : Nat) < 2 ^ 31 ∧ (Client.emptyTable 3).length = 3
        ∧ 1 ≤ (⟨2, 10, 0, 12, 0⟩ : Client.Decoded).seq
        ∧ (⟨2, 10, 0, 12, 0⟩ : Client.Decoded).seq ≤ 3)
      ∧ (⟨2, 10, 0, 12, 0⟩ : Client.Decoded).seq - 1 < 3
      ∧ (Client.storeResult 3 ⟨2, 10, 0, 12, 0⟩ 11 0 (Client.emptyTable 3)).length = 3
      ∧ (Client.storeResult 3 ⟨2, 10, 0, 12, 0⟩ 11 0 (Client.emptyTable 3))[
            (⟨2, 10, 0, 12, 0⟩ : Client.Decoded).seq - 1]?
          = some { seq := (⟨2, 10, 0, 12, 0⟩ : Client.Decoded).seq
                   theta := (((((⟨2, 10, 0, 12, 0⟩ : Client.Decoded).serv_sec : ℚ)
                                + ((⟨2, 10, 0, 12, 0⟩ : Client.Decoded).serv_nsec : ℚ) / 10 ^ 9)
                              - (((⟨2, 10, 0, 12, 0⟩ : Client.Decoded).client_sec1 : ℚ)
                                + ((⟨2, 10, 0, 12, 0⟩ : Client.Decoded).client_nsec1 : ℚ)
                                  / 10 ^ 9))
                            + ((((⟨2, 10, 0, 12, 0⟩ : Client.Decoded).serv_sec : ℚ)
                                + ((⟨2, 10, 0, 12, 0⟩ : Client.Decoded).serv_nsec : ℚ) / 10 ^ 9)
                              - (((11 : Nat) : ℚ) + ((0 : Nat) : ℚ) / 10 ^ 9))) / 2
                   delta := (((11 : Nat) : ℚ) + ((0 : Nat) : ℚ) / 10 ^ 9)
                            - (((⟨2, 10, 0, 12, 0⟩ : Client.Decoded).client_sec1 : ℚ)
                                + ((⟨2, 10, 0, 12, 0⟩ : Client.Decoded).client_nsec1 : ℚ)
                                  / 10 ^ 9) }
      ∧ ∀ j, j ≠ (⟨2, 10, 0, 12, 0⟩ : Client.Decoded).seq - 1 →
          (Client.storeResult 3 ⟨2, 10, 0, 12, 0⟩ 11 0 (Client.emptyTable 3))[j]?
            = (Client.emptyTable 3)[j]? :=
  ⟨⟨by decide, rfl, by decide, by decide⟩,
    C9_in_range_updates_one_slot 3 ⟨2, 10, 0, 12, 0⟩ 11 0 (Client.emptyTable 3) (by decide) rfl
      (by decide) (by decide)⟩

/-! ## Datagrams shorter than a frame -/

theorem recvInto_short (buf d : List Byte) (cap : Nat) (hd : d.length ≤ cap) :
    recvInto buf cap d = d ++ buf.drop d.length := by
  rw [recvInto_eq, Nat.min_eq_right hd, List.take_of_length_le hd]

theorem recvInto_padded (buf buf2 d : List Byte) (cap : Nat) (hb : buf.length = cap)
    (hb2 : buf2.length = cap) (hd : d.length ≤ cap) :
    recvInto buf2 cap (d ++ buf.drop d.length) = recvInto buf cap d := by
  have hlen : (d ++ buf.drop d.length).length = cap := by
    simp only [List.length_append, List.length_drop]
    omega
  rw [recvInto_short buf d cap hd, recvInto_full buf2 _ cap hb2 (le_of_eq hlen.symm),
    List.take_of_length_le (le_of_eq hlen)]

theorem Server.encodeResponse_length (e : Endian) (condensed : Bool) (stale : Nat → Byte)
    (d : Server.Decoded) (tv_sec tv_nsec : Nat) :
    (Server.encodeResponse e condensed stale d tv_sec tv_nsec).length
      = Server.send_len condensed := by
  rw [Server.encodeResponse_eq]
  cases condensed <;>
    simp [versionField, store_length, BE32_length, BE16_length, BE64_length, Server.send_len,
      Server.SEND_BUFFER_SIZE]

/-- C6, as the code has it: the server loop never compares the length of a
datagram with the request size.  A shorter datagram (the empty one included)
that the loss decision lets through is handled exactly as the full-length
datagram made of its octets followed by what the receive buffer still held:
the session list is updated with the sequence number read from that buffer and
a response of full size is sent. -/
theorem C6_undersized_request_processed (e : Endian) (args : Server.Args)
    (clients : List Server.Node) (inp : Server.Input) (d : List Byte)
    (hrecv : inp.recv = some d) (hshort : d.length < Server.recv_len args.condensed)
    (hkeep : Server.dropped args inp.rand = false) :
    Server.step e args clients inp
        = Server.step e args clients
            { inp with recv := some (d ++ (freshBuffer (Server.recv_len args.condensed)
                inp.stale).drop d.length) }
      ∧ (Server.step e args clients inp).clients
          = (Server.update_clients clients inp.addr inp.port
              (toInt32 (ofBE (readAt (d ++ (freshBuffer (Server.recv_len args.condensed)
                inp.stale).drop d.length) 0 4))) inp.tv_sec).1
      ∧ ∃ resp, (Server.step e args clients inp).sent = some resp
          ∧ resp.length = Server.send_len args.condensed := by
  have hpad : Server.recvBuffer args.condensed inp.stale
      (d ++ (freshBuffer (Server.recv_len args.condensed) inp.stale).drop d.length)
      = Server.recvBuffer args.condensed inp.stale d :=
    recvInto_padded _ _ d _ (freshBuffer_length _ _) (freshBuffer_length _ _) (le_of_lt hshort)
  have hfull : Server.recv_len args.condensed
      ≤ (d ++ (freshBuffer (Server.recv_len args.condensed) inp.stale).drop d.length).length := by
    simp only [List.length_append, List.length_drop, freshBuffer_length]
    omega
  refine ⟨?_, ?_, _, by rw [Server.step_sent e args clients inp d hrecv hkeep],
    Server.encodeResponse_length _ _ _ _ _ _⟩
  · rw [Server.step_sent e args clients inp d hrecv hkeep,
      Server.step_sent e args clients
        { inp with recv := some (d ++ (freshBuffer (Server.recv_len args.condensed)
            inp.stale).drop d.length) } _ rfl hkeep, hpad]
  · rw [Server.step_sent e args clients inp d hrecv hkeep, ← hpad,
      (Server.decodeRequest_full e args.condensed inp.stale _ hfull).1]

/-- Counterexample to C6 as stated: an empty datagram is answered.  With
nothing dropped and no session yet, the server sends a full standard response
built from the untouched receive buffer and opens a session. -/
theorem C6_empty_datagram_answered :
    ([] : List Byte).length < Server.recv_len false
      ∧ (Server.step .little ⟨0, false⟩ []
          ⟨fun _ => 0, some [], "10.0.0.1", "4000", 5, 100, 200, fun _ => 0⟩).sent
        = some (BE32 0 ++ BE32 7 ++ BE64 0 ++ BE64 0 ++ BE64 100 ++ BE64 200)
      ∧ (Server.step .little ⟨0, false⟩ []
          ⟨fun _ => 0, some [], "10.0.0.1", "4000", 5, 100, 200, fun _ => 0⟩).sent ≠ none
      ∧ (Server.step .little ⟨0, false⟩ []
          ⟨fun _ => 0, some [], "10.0.0.1", "4000", 5, 100, 200, fun _ => 0⟩).clients
        = [⟨100, 0, "10.0.0.1", "4000"⟩]
      ∧ (Server.step .little ⟨0, false⟩ []
          ⟨fun _ => 0, some [], "10.0.0.1", "4000", 5, 100, 200, fun _ => 0⟩).clients ≠ [] := by
  decide

/-- Witness of C6: the empty datagram, standard format, nothing dropped. -/
theorem C6_undersized_request_processed_witness :
    ((⟨fun _ => 0, some [], "10.0.0.1", "4000", 5, 100, 200, fun _ => 0⟩ : Server.Input).recv
          = some []
        ∧ ([] : List Byte).length < Server.recv_len (⟨0, false⟩ : Server.Args).condensed
        ∧ Server.dropped ⟨0, false⟩ 5 = false)
      ∧ Server.step .little ⟨0, false⟩ []
            ⟨fun _ => 0, some [], "10.0.0.1", "4000", 5, 100, 200, fun _ => 0⟩
          = Server.step .little ⟨0, false⟩ []
              ⟨fun _ => 0, some ([] ++ (freshBuffer (Server.recv_len false) (fun _ => 0)).drop
                ([] : List Byte).length), "10.0.0.1", "4000", 5, 100, 200, fun _ => 0⟩
      ∧ (Server.step .little ⟨0, false⟩ []
            ⟨fun _ => 0, some [], "10.0.0.1", "4000", 5, 100, 200, fun _ => 0⟩).clients
          = (Server.update_clients [] "10.0.0.1" "4000"
              (toInt32 (ofBE (readAt ([] ++ (freshBuffer (Server.recv_len false)
                (fun _ => 0)).drop ([] : List Byte).length) 0 4))) ((100 : Nat) : Int)).1
      ∧ ∃ resp, (Server.step .little ⟨0, false⟩ []
            ⟨fun _ => 0, some [], "10.0.0.1", "4000", 5, 100, 200, fun _ => 0⟩).sent = some resp
          ∧ resp.length = Server.send_len false :=
  ⟨⟨rfl, by decide, by decide⟩,
    C6_undersized_request_processed .little ⟨0, false⟩ []
      ⟨fun _ => 0, some [], "10.0.0.1", "4000", 5, 100, 200, fun _ => 0⟩ [] rfl
      (by decide) (by decide)⟩

/-- C7, as the code has it: the receive loop never compares the length of a
datagram with the response size.  A shorter response is processed exactly as
the full-length datagram made of its octets followed by what the receive
buffer still held, so the fields beyond the received octets are read from the
buffer's previous contents. -/
theorem C7_undersized_response_processed (e : Endian) (condensed : Bool) (N : Nat)
    (stale stale2 : Nat → Byte) (d : List Byte) (sec2 nsec2 : Nat)
    (responses : List Client.Response) (hshort : d.length < Client.recv_len condensed) :
    Client.recvBuffer condensed stale d
        = d ++ (freshBuffer (Client.recv_len condensed) stale).drop d.length
      ∧ Client.processDatagram e condensed N stale d sec2 nsec2 responses
        = Client.processDatagram e condensed N stale2
            (d ++ (freshBuffer (Client.recv_len condensed) stale).drop d.length) sec2 nsec2
            responses := by
  refine ⟨recvInto_short _ d _ (le_of_lt hshort), ?_⟩
  have hpad : Client.recvBuffer condensed stale2
      (d ++ (freshBuffer (Client.recv_len condensed) stale).drop d.length)
      = Client.recvBuffer condensed stale d :=
    recvInto_padded _ _ d _ (freshBuffer_length _ _) (freshBuffer_length _ _) (le_of_lt hshort)
  rw [Client.processDatagram, Client.processDatagram, hpad]

/-- Counterexample to C7 as stated: a response of four octets is stored.  With
one request outstanding, the datagram `00 00 00 01` fills slot 0, its times
read from the zeroed rest of the buffer. -/
theorem C7_short_response_stored :
    ([0, 0, 0, 1] : List Byte).length < Client.recv_len false
      ∧ Client.processDatagram .little false 1 (fun _ => 0) [0, 0, 0, 1] 10 0
          (Client.emptyTable 1) = [⟨1, -5, 10⟩]
      ∧ Client.processDatagram .little false 1 (fun _ => 0) [0, 0, 0, 1] 10 0
          (Client.emptyTable 1) ≠ Client.emptyTable 1 := by
  have hdec : Client.decodeResponse .little false
      (Client.recvBuffer false (fun _ => 0) [0, 0, 0, 1]) = ⟨1, 0, 0, 0, 0⟩ := by decide
  have hval : Client.processDatagram .little false 1 (fun _ => 0) [0, 0, 0, 1] 10 0
      (Client.emptyTable 1) = [⟨1, -5, 10⟩] := by
    rw [Client.processDatagram, hdec]
    simp [Client.storeResult, Client.instant, Client.emptyTable]
    norm_num
  refine ⟨by decide, hval, ?_⟩
  rw [hval]
  simp [Client.emptyTable]

/-- Witness of C7: the four-octet datagram of the example above. -/
theorem C7_undersized_response_processed_witness :
    ([0, 0, 0, 1] : List Byte).length < Client.recv_len false
      ∧ Client.recvBuffer false (fun _ => 0) [0, 0, 0, 1]
          = [0, 0, 0, 1] ++ (freshBuffer (Client.recv_len false) (fun _ => 0)).drop
              ([0, 0, 0, 1] : List Byte).length
      ∧ Client.processDatagram .little false 1 (fun _ => 0) [0, 0, 0, 1] 10 0
            (Client.emptyTable 1)
          = Client.processDatagram .little false 1 (fun _ => 7)
              ([0, 0, 0, 1] ++ (freshBuffer (Client.recv_len false) (fun _ => 0)).drop
                ([0, 0, 0, 1] : List Byte).length) 10 0 (Client.emptyTable 1) :=
  ⟨by decide, C7_undersized_response_processed .little false 1 (fun _ => 0) (fun _ => 7)
    [0, 0, 0, 1] 10 0 (Client.emptyTable 1) (by decide)⟩

/-! ## A complete run -/

theorem Server.step_sent_indep (e : Endian) (args : Server.Args)
    (c1 c2 : List Server.Node) (inp : Server.Input) :
    (Server.step e args c1 inp).sent = (Server.step e args c2 inp).sent := by
  unfold Server.step
  split
  · rfl
  · split <;> rfl

theorem Server.loop_sent (e : Endian) (args : Server.Args) (clients : List Server.Node)
    (inputs : List Server.Input) :
    (Server.loop e args clients inputs).map (fun o => o.sent)
      = inputs.map (fun inp => (Server.step e args [] inp).sent) := by
  induction inputs generalizing clients with
  | nil => rfl
  | cons inp rest ih =>
    simp only [Server.loop, List.map_cons, ih]
    rw [Server.step_sent_indep e args clients [] inp]

theorem Server.dropped_zero (args : Server.Args) (rand : Nat) (h : args.drop_percent = 0) :
    Server.dropped args rand = false := by
  simp [Server.dropped, h]

theorem Server.step_sent_request (e : Endian) (args : Server.Args) (inp : Server.Input)
    (stale : Nat → Byte) (seq sec nsec : Nat) (hdrop : args.drop_percent = 0)
    (hrecv : inp.recv = some (Client.encodeRequest e args.condensed stale seq sec nsec)) :
    (Server.step e args [] inp).sent
      = some (BE32 seq ++ versionField args.condensed ++ BE64 sec ++ BE64 nsec
          ++ BE64 inp.tv_sec ++ BE64 inp.tv_nsec) := by
  rw [Server.step_sent e args [] inp _ hrecv (Server.dropped_zero args _ hdrop),
    Client.encodeRequest_eq, Server.response_to_request]

theorem Client.decodedSeq_frame (e : Endian) (condensed : Bool) (inp : Client.RecvInput)
    (seq sec nsec ssec snsec : Nat) (hseq : seq < 2 ^ 32)
    (h : inp.recv = some (BE32 seq ++ versionField condensed ++ BE64 sec ++ BE64 nsec
      ++ BE64 ssec ++ BE64 snsec)) :
    Client.decodedSeq e condensed inp = some seq := by
  rw [Client.decodedSeq, h, Option.map_some', Client.decodeResponse_frame,
    Nat.mod_eq_of_lt hseq]

theorem Client.processDatagram_length (e : Endian) (condensed : Bool) (N : Nat)
    (stale : Nat → Byte) (d : List Byte) (sec2 nsec2 : Nat) (responses : List Client.Response) :
    (Client.processDatagram e condensed N stale d sec2 nsec2 responses).length
      = responses.length := by
  rw [Client.processDatagram, Client.storeResult_length]

theorem Client.recvLoop_length (e : Endian) (condensed : Bool) (N : Nat)
    (inputs : List Client.RecvInput) (responses : List Client.Response) :
    (Client.recvLoop e condensed N inputs responses).length = responses.length := by
  induction inputs generalizing responses with
  | nil => rfl
  | cons inp rest ih =>
    unfold Client.recvLoop
    split
    · rfl
    · rw [ih, Client.processDatagram_length]

/-- Slot `j` after one in-range datagram: it holds `j + 1` if it did before
or if the datagram carries `j + 1`. -/
theorem Client.processDatagram_seq (e : Endian) (condensed : Bool) (N : Nat)
    (stale : Nat → Byte) (d : List Byte) (sec2 nsec2 : Nat) (responses : List Client.Response)
    (hN : N < 2 ^ 31) (hlen : responses.length = N) (j : Nat)
    (h1 : 1 ≤ (Client.decodeResponse e condensed (Client.recvBuffer condensed stale d)).seq)
    (h2 : (Client.decodeResponse e condensed (Client.recvBuffer condensed stale d)).seq ≤ N)
    (hj : (responses[j]?).map (fun r => r.seq) = some (j + 1)
      ∨ (Client.decodeResponse e condensed (Client.recvBuffer condensed stale d)).seq = j + 1) :
    ((Client.processDatagram e condensed N stale d sec2 nsec2 responses)[j]?).map
      (fun r => r.seq) = some (j + 1) := by
  rw [Client.processDatagram, Client.storeResult_in_range N _ sec2 nsec2 responses hN h1 h2]
  by_cases hji :
      (Client.decodeResponse e condensed (Client.recvBuffer condensed stale d)).seq = j + 1
  · rw [hji]
    simp only [Nat.add_sub_cancel]
    rw [List.getElem?_set_eq_of_lt _ (by omega)]
    rfl
  · rw [List.getElem?_set_ne (by omega)]
    rcases hj with hj | hj
    · exact hj
    · exact absurd hj hji

theorem Client.recvLoop_seq (e : Endian) (condensed : Bool) (N : Nat) (hN : N < 2 ^ 31)
    (inputs : List Client.RecvInput) (responses : List Client.Response)
    (hlen : responses.length = N)
    (hall : ∀ inp ∈ inputs, ∃ k, Client.decodedSeq e condensed inp = some k ∧ 1 ≤ k ∧ k ≤ N)
    (j : Nat)
    (hj : (responses[j]?).map (fun r => r.seq) = some (j + 1)
      ∨ ∃ inp ∈ inputs, Client.decodedSeq e condensed inp = some (j + 1)) :
    ((Client.recvLoop e condensed N inputs responses)[j]?).map (fun r => r.seq)
      = some (j + 1) := by
  induction inputs generalizing responses with
  | nil =>
    rcases hj with hj | ⟨inp, hmem, _⟩
    · exact hj
    · cases hmem
  | cons inp rest ih =>
    obtain ⟨k, hk, hk1, hk2⟩ := hall inp (List.mem_cons_self _ _)
    unfold Client.decodedSeq at hk
    cases hrecv : inp.recv with
    | none => rw [hrecv] at hk; cases hk
    | some d =>
      rw [hrecv, Option.map_some', Option.some.injEq] at hk
      unfold Client.recvLoop
      simp only [hrecv]
      apply ih _ (by rw [Client.processDatagram_length, hlen])
        (fun inp2 h2 => hall inp2 (List.mem_cons_of_mem _ h2))
      rcases hj with hj | ⟨inp2, hmem, hseq⟩
      · exact Or.inl (Client.processDatagram_seq e condensed N inp.stale d inp.sec2 inp.nsec2
          responses hN hlen j (by omega) (by omega) (Or.inl hj))
      · rcases List.mem_cons.mp hmem with heq | hrest
        · subst heq
          unfold Client.decodedSeq at hseq
          rw [hrecv, Option.map_some', Option.some.injEq] at hseq
          exact Or.inl (Client.processDatagram_seq e condensed N inp2.stale d inp2.sec2
            inp2.nsec2 responses hN hlen j (by omega) (by omega) (Or.inr hseq))
        · exact Or.inr ⟨inp2, hrest, hseq⟩

theorem Client.report_getElem (N : Nat) (responses : List Client.Response) (i : Nat)
    (hi : i < N) (r : Client.Response) (hr : responses[i]? = some r) (hseq : r.seq ≠ 0) :
    (Client.report N responses)[i]? = some (.result (i + 1) r.theta r.delta) := by
  simp [Client.report, Client.reportLine, List.getD, hr, hi, hseq]

/-- C10: with a drop percentage of 0, when the server receives the `N`
requests of the client (in some order) and the client receives the `N`
responses the server sent (in some order, no receive failing), every slot `i`
of the table holds `seq = i + 1` after the receive phase, and the report is
`N` lines numbered `1, ..., N` in order, none of them a "Dropped" line. -/
theorem C10_complete_run (e : Endian) (args : Server.Args) (N : Nat)
    (sendEnv : Nat → Client.SendInput) (clients : List Server.Node)
    (srvInputs : List Server.Input) (recvEnv : Nat → Client.RecvInput)
    (hN : N < 2 ^ 31) (hdrop : args.drop_percent = 0)
    (hsrv : List.Perm (srvInputs.map (fun inp => inp.recv))
      ((Client.sendLoop e args.condensed N sendEnv).map some))
    (hcli : List.Perm ((List.range N).map (fun i => (recvEnv i).recv))
      ((Server.loop e args clients srvInputs).map (fun o => o.sent))) :
    (∀ i, i < N →
        ((Client.recvPhase e args.condensed N recvEnv)[i]?).map (fun r => r.seq) = some (i + 1))
      ∧ (Client.report N (Client.recvPhase e args.condensed N recvEnv)).length = N
      ∧ (∀ i, i < N → ∃ theta delta,
          (Client.report N (Client.recvPhase e args.condensed N recvEnv))[i]?
            = some (.result (i + 1) theta delta)) := by
  rw [Server.loop_sent] at hcli
  -- every datagram sent by the server answers one of the requests
  have hsent : ∀ x, x ∈ srvInputs.map (fun inp => (Server.step e args [] inp).sent) →
      ∃ i, i < N ∧ ∃ sec nsec ssec snsec,
        x = some (BE32 (i + 1) ++ versionField args.condensed ++ BE64 sec ++ BE64 nsec
          ++ BE64 ssec ++ BE64 snsec) := by
    intro x hx
    obtain ⟨inp, hinp, rfl⟩ := List.mem_map.mp hx
    have hreq : inp.recv ∈ (Client.sendLoop e args.condensed N sendEnv).map some :=
      hsrv.mem_iff.mp (List.mem_map.mpr ⟨inp, hinp, rfl⟩)
    obtain ⟨f, hf, hfe⟩ := List.mem_map.mp hreq
    obtain ⟨i, hi, rfl⟩ := List.mem_map.mp hf
    exact ⟨i, List.mem_range.mp hi, _, _, _, _,
      Server.step_sent_request e args inp (sendEnv i).stale (i + 1) (sendEnv i).sec
        (sendEnv i).nsec hdrop hfe.symm⟩
  -- every request is answered by one of the datagrams sent
  have hans : ∀ i, i < N → ∃ sec nsec ssec snsec,
      some (BE32 (i + 1) ++ versionField args.condensed ++ BE64 sec ++ BE64 nsec
          ++ BE64 ssec ++ BE64 snsec)
        ∈ srvInputs.map (fun inp => (Server.step e args [] inp).sent) := by
    intro i hi
    have hreq : some (Client.sendIteration e args.condensed sendEnv i)
        ∈ srvInputs.map (fun inp => inp.recv) :=
      hsrv.mem_iff.mpr (List.mem_map.mpr ⟨_, List.mem_map.mpr ⟨i, List.mem_range.mpr hi, rfl⟩,
        rfl⟩)
    obtain ⟨inp, hinp, hrecv⟩ := List.mem_map.mp hreq
    refine ⟨(sendEnv i).sec, (sendEnv i).nsec, inp.tv_sec, inp.tv_nsec, ?_⟩
    rw [← Server.step_sent_request e args inp (sendEnv i).stale (i + 1) (sendEnv i).sec
      (sendEnv i).nsec hdrop hrecv]
    exact List.mem_map.mpr ⟨inp, hinp, rfl⟩
  -- what the receive loop decodes
  have hall : ∀ inp ∈ (List.range N).map recvEnv,
      ∃ k, Client.decodedSeq e args.condensed inp = some k ∧ 1 ≤ k ∧ k ≤ N := by
    intro inp hinp
    obtain ⟨m, hm, rfl⟩ := List.mem_map.mp hinp
    have hmem : (recvEnv m).recv ∈ (List.range N).map (fun i => (recvEnv i).recv) :=
      List.mem_map.mpr ⟨m, hm, rfl⟩
    obtain ⟨i, hi, sec, nsec, ssec, snsec, hx⟩ := hsent _ (hcli.mem_iff.mp hmem)
    exact ⟨i + 1, Client.decodedSeq_frame e args.condensed _ (i + 1) sec nsec ssec snsec
      (by omega) hx, by omega, by omega⟩
  have hslot : ∀ i, i < N →
      ((Client.recvPhase e args.condensed N recvEnv)[i]?).map (fun r => r.seq)
        = some (i + 1) := by
    intro i hi
    obtain ⟨sec, nsec, ssec, snsec, hmem⟩ := hans i hi
    obtain ⟨m, hm, hrecv⟩ := List.mem_map.mp (hcli.mem_iff.mpr hmem)
    apply Client.recvLoop_seq e args.condensed N hN _ _ (by simp [Client.emptyTable]) hall
    exact Or.inr ⟨recvEnv m, List.mem_map.mpr ⟨m, hm, rfl⟩,
      Client.decodedSeq_frame e args.condensed _ (i + 1) sec nsec ssec snsec (by omega) hrecv⟩
  refine ⟨hslot, by simp [Client.report], ?_⟩
  intro i hi
  have h := hslot i hi
  cases hr : (Client.recvPhase e args.condensed N recvEnv)[i]? with
  | none => rw [hr] at h; cases h
  | some r =>
    rw [hr, Option.map_some', Option.some.injEq] at h
    exact ⟨r.theta, r.delta, Client.report_getElem N _ i hi r hr (by omega)⟩

/-- Witness of C10: five standard requests, answered in order and received in
the reverse order. -/
theorem C10_complete_run_witness :
    ((5 : Nat) < 2 ^ 31 ∧ (⟨0, false⟩ : Server.Args).drop_percent = 0
        ∧ List.Perm (Scenario.srvInputs.map (fun inp => inp.recv))
            ((Client.sendLoop .little false 5 Scenario.sendEnv).map some)
        ∧ List.Perm ((List.range 5).map (fun i => (Scenario.recvEnv i).recv))
            ((Server.loop .little ⟨0, false⟩ [] Scenario.srvInputs).map (fun o => o.sent)))
      ∧ (∀ i, i < 5 →
          ((Client.recvPhase .little false 5 Scenario.recvEnv)[i]?).map (fun r => r.seq)
            = some (i + 1))
      ∧ (Client.report 5 (Client.recvPhase .little false 5 Scenario.recvEnv)).length = 5
      ∧ (∀ i, i < 5 → ∃ theta delta,
          (Client.report 5 (Client.recvPhase .little false 5 Scenario.recvEnv))[i]?
            = some (.result (i + 1) theta delta)) :=
  have hsrv : List.Perm (Scenario.srvInputs.map (fun inp => inp.recv))
      ((Client.sendLoop .little false 5 Scenario.sendEnv).map some) :=
    List.Perm.of_eq (by decide)
  have hcli : List.Perm ((List.range 5).map (fun i => (Scenario.recvEnv i).recv))
      ((Server.loop .little ⟨0, false⟩ [] Scenario.srvInputs).map (fun o => o.sent)) :=
    (List.Perm.of_eq (by decide :
      (List.range 5).map (fun i => (Scenario.recvEnv i).recv)
        = ((Server.loop .little ⟨0, false⟩ [] Scenario.srvInputs).map
            (fun o => o.sent)).reverse)).trans (List.reverse_perm _)
  ⟨⟨by decide, rfl, hsrv, hcli⟩,
    C10_complete_run .little ⟨0, false⟩ 5 Scenario.sendEnv [] Scenario.srvInputs
      Scenario.recvEnv (by decide) rfl hsrv hcli⟩

/-! ## The session list of the server -/

theorem Server.expire_addr (t : Int) (n : Server.Node) : (Server.expire t n).addr = n.addr := by
  unfold Server.expire
  split <;> rfl

theorem Server.expire_port (t : Int) (n : Server.Node) : (Server.expire t n).port = n.port := by
  unfold Server.expire
  split <;> rfl

theorem Server.expire_key (t : Int) (n : Server.Node) :
    (Server.expire t n).key = n.key := by
  simp [Server.Node.key, Server.expire_addr, Server.expire_port]

theorem Server.expire_stale (t : Int) (n : Server.Node) (h : t - n.last_update ≥ 120) :
    Server.expire t n = { n with seq := 0, last_update := t } := by
  simp [Server.expire, h]

theorem Server.expire_fresh (t : Int) (n : Server.Node) (h : t - n.last_update < 120) :
    Server.expire t n = n := by
  have h2 : ¬ (t - n.last_update ≥ 120) := by omega
  simp [Server.expire, h2]

/-- No session for `(addr, port)`: every node is visited and a new node is put
at the end. -/
theorem Server.update_clients_no_match (l : List Server.Node) (addr port : String)
    (s t : Int) (h : ∀ m ∈ l, ¬ Server.isFor addr port m) :
    Server.update_clients l addr port s t
      = (l.map (Server.expire t)
          ++ [{ last_update := t, seq := s, addr := addr, port := port }], []) := by
  induction l with
  | nil => rfl
  | cons n rest ih =>
    have hn : ¬ (n.addr = addr ∧ n.port = port) := h n (List.mem_cons_self _ _)
    have ih2 := ih (fun m hm => h m (List.mem_cons_of_mem _ hm))
    simp only [Server.update_clients, Server.expire_addr, Server.expire_port, hn, if_false, ih2,
      List.map_cons, List.cons_append]

/-- A first session for `(addr, port)`: the nodes before it are visited, the
node itself is visited and overwritten, the nodes after it are not touched. -/
theorem Server.update_clients_first_match (pre post : List Server.Node) (n : Server.Node)
    (addr port : String) (s t : Int) (hpre : ∀ m ∈ pre, ¬ Server.isFor addr port m)
    (hn : Server.isFor addr port n) :
    Server.update_clients (pre ++ n :: post) addr port s t
      = (pre.map (Server.expire t)
          ++ { Server.expire t n with seq := s, last_update := t } :: post,
         if s < (Server.expire t n).seq then
           [{ addr := n.addr, port := n.port, new_seq := s, seq := (Server.expire t n).seq }]
         else []) := by
  induction pre with
  | nil =>
    have hn2 : n.addr = addr ∧ n.port = port := hn
    simp only [List.nil_append, Server.update_clients, Server.expire_addr, Server.expire_port,
      hn2, and_self, if_true, List.map_nil]
  | cons m rest ih =>
    have hm : ¬ (m.addr = addr ∧ m.port = port) := hpre m (List.mem_cons_self _ _)
    have ih2 := ih (fun x hx => hpre x (List.mem_cons_of_mem _ hx))
    simp only [List.cons_append, Server.update_clients, Server.expire_addr, Server.expire_port,
      hm, if_false, List.append_eq, ih2, List.map_cons]

/-- A list with a session for `(addr, port)` splits at the first one. -/
theorem Server.split_first_match (l : List Server.Node) (addr port : String)
    (h : ∃ m ∈ l, Server.isFor addr port m) :
    ∃ pre n post, l = pre ++ n :: post ∧ (∀ m ∈ pre, ¬ Server.isFor addr port m)
      ∧ Server.isFor addr port n := by
  induction l with
  | nil =>
    obtain ⟨m, hm, _⟩ := h
    cases hm
  | cons a rest ih =>
    by_cases ha : Server.isFor addr port a
    · exact ⟨[], a, rest, rfl, fun m hm => (by cases hm), ha⟩
    · obtain ⟨m, hm, hfor⟩ := h
      rcases List.mem_cons.mp hm with heq | hrest
      · exact absurd (heq ▸ hfor) ha
      · obtain ⟨pre, n, post, hl, hpre, hn⟩ := ih ⟨m, hrest, hfor⟩
        refine ⟨a :: pre, n, post, by rw [hl]; rfl, ?_, hn⟩
        intro x hx
        rcases List.mem_cons.mp hx with heq | hx2
        · exact heq ▸ ha
        · exact hpre x hx2

theorem Server.firstMatch_no_match (l : List Server.Node) (addr port : String)
    (h : ∀ m ∈ l, ¬ Server.isFor addr port m) : Server.firstMatch addr port l = l.length := by
  induction l with
  | nil => rfl
  | cons n rest ih =>
    have hn : ¬ (n.addr = addr ∧ n.port = port) := h n (List.mem_cons_self _ _)
    simp only [Server.firstMatch, hn, if_false, List.length_cons,
      ih (fun m hm => h m (List.mem_cons_of_mem _ hm))]

theorem Server.firstMatch_split (pre post : List Server.Node) (n : Server.Node)
    (addr port : String) (hpre : ∀ m ∈ pre, ¬ Server.isFor addr port m)
    (hn : Server.isFor addr port n) :
    Server.firstMatch addr port (pre ++ n :: post) = pre.length := by
  induction pre with
  | nil =>
    have hn2 : n.addr = addr ∧ n.port = port := hn
    simp only [List.nil_append, Server.firstMatch, hn2, and_self, if_true, List.length_nil]
  | cons m rest ih =>
    have hm : ¬ (m.addr = addr ∧ m.port = port) := hpre m (List.mem_cons_self _ _)
    simp only [List.cons_append, Server.firstMatch, hm, if_false, List.length_cons,
      List.append_eq, ih (fun x hx => hpre x (List.mem_cons_of_mem _ hx))]

theorem Server.update_clients_keys_match (l : List Server.Node) (addr port : String)
    (s t : Int) (h : ∃ m ∈ l, Server.isFor addr port m) :
    (Server.update_clients l addr port s t).1.map Server.Node.key = l.map Server.Node.key := by
  obtain ⟨pre, n, post, rfl, hpre, hn⟩ := Server.split_first_match l addr port h
  rw [Server.update_clients_first_match pre post n addr port s t hpre hn]
  simp [Server.Node.key, Server.expire_addr, Server.expire_port]

theorem Server.update_clients_keys_no_match (l : List Server.Node) (addr port : String)
    (s t : Int) (h : ∀ m ∈ l, ¬ Server.isFor addr port m) :
    (Server.update_clients l addr port s t).1.map Server.Node.key
      = l.map Server.Node.key ++ [(addr, port)] := by
  rw [Server.update_clients_no_match l addr port s t h]
  simp [Server.Node.key, Server.expire_addr, Server.expire_port]

theorem Server.update_clients_unique (l : List Server.Node) (addr port : String) (s t : Int)
    (hu : Server.UniqueSessions l) :
    Server.UniqueSessions (Server.update_clients l addr port s t).1 := by
  unfold Server.UniqueSessions at hu ⊢
  by_cases h : ∃ m ∈ l, Server.isFor addr port m
  · rw [Server.update_clients_keys_match l addr port s t h]
    exact hu
  · have hno : ∀ m ∈ l, ¬ Server.isFor addr port m := fun m hm hfor => h ⟨m, hm, hfor⟩
    rw [Server.update_clients_keys_no_match l addr port s t hno]
    refine List.nodup_append.mpr ⟨hu, List.nodup_singleton _, ?_⟩
    intro k hk hk2
    rw [List.mem_singleton] at hk2
    obtain ⟨m, hm, hkey⟩ := List.mem_map.mp hk
    apply hno m hm
    rw [hk2] at hkey
    simp only [Server.Node.key, Prod.mk.injEq] at hkey
    exact hkey

theorem Server.step_clients (e : Endian) (args : Server.Args) (clients : List Server.Node)
    (inp : Server.Input) :
    (Server.step e args clients inp).clients = clients
      ∨ ∃ s, (Server.step e args clients inp).clients
          = (Server.update_clients clients inp.addr inp.port s inp.tv_sec).1 := by
  unfold Server.step
  split
  · exact Or.inl rfl
  · split
    · exact Or.inl rfl
    · exact Or.inr ⟨_, rfl⟩

theorem Server.step_unique (e : Endian) (args : Server.Args) (clients : List Server.Node)
    (inp : Server.Input) (hu : Server.UniqueSessions clients) :
    Server.UniqueSessions (Server.step e args clients inp).clients := by
  rcases Server.step_clients e args clients inp with h | ⟨s, h⟩
  · rw [h]; exact hu
  · rw [h]; exact Server.update_clients_unique _ _ _ _ _ hu

theorem Server.loop_unique (e : Endian) (args : Server.Args) (inputs : List Server.Input)
    (clients : List Server.Node) (hu : Server.UniqueSessions clients) :
    ∀ o ∈ Server.loop e args clients inputs, Server.UniqueSessions o.clients := by
  induction inputs generalizing clients with
  | nil =>
    intro o ho
    cases ho
  | cons inp rest ih =>
    intro o ho
    rw [Server.loop] at ho
    rcases List.mem_cons.mp ho with heq | hrest
    · rw [heq]; exact Server.step_unique e args clients inp hu
    · exact ih _ (Server.step_unique e args clients inp hu) o hrest

/-- C14: the empty collection holds at most one session per (address, port)
pair; `update_clients` keeps that property; hence every session list the
server loop reaches from the empty one has it. -/
theorem C14_session_uniqueness :
    Server.UniqueSessions []
      ∧ (∀ (l : List Server.Node) (addr port : String) (new_seq now : Int),
          Server.UniqueSessions l →
          Server.UniqueSessions (Server.update_clients l addr port new_seq now).1)
      ∧ (∀ (e : Endian) (args : Server.Args) (inputs : List Server.Input),
          ∀ o ∈ Server.loop e args [] inputs, Server.UniqueSessions o.clients) := by
  have hnil : Server.UniqueSessions [] := by simp [Server.UniqueSessions]
  exact ⟨hnil, fun l addr port s t hu => Server.update_clients_unique l addr port s t hu,
    fun e args inputs => Server.loop_unique e args inputs [] hnil⟩

/-- Witness of C14: a second packet from a known sender and a first packet from
a new port leave one session per pair. -/
theorem C14_session_uniqueness_witness :
    Server.UniqueSessions [⟨0, 5, "10.0.0.1", "4000"⟩]
      ∧ Server.UniqueSessions
          (Server.update_clients [⟨0, 5, "10.0.0.1", "4000"⟩] "10.0.0.1" "4000" 6 1).1
      ∧ Server.UniqueSessions
          (Server.update_clients [⟨0, 5, "10.0.0.1", "4000"⟩] "10.0.0.1" "4001" 1 1).1 :=
  ⟨by simp [Server.UniqueSessions],
    C14_session_uniqueness.2.1 [⟨0, 5, "10.0.0.1", "4000"⟩] "10.0.0.1" "4000" 6 1
      (by simp [Server.UniqueSessions]),
    C14_session_uniqueness.2.1 [⟨0, 5, "10.0.0.1", "4000"⟩] "10.0.0.1" "4001" 1 1
      (by simp [Server.UniqueSessions])⟩

/-- C12: in a collection with one session per pair, when the session for
`(addr, port)` holds `last_seq = s`, is less than 120 seconds old at `now` and
`new_seq < s`, `update_clients` prints exactly one line, `(addr, port, new_seq,
s)`, and afterwards the session for `(addr, port)` holds `new_seq` and `now`. -/
theorem C12_reordering_detected (l : List Server.Node) (n : Server.Node) (addr port : String)
    (new_seq now : Int) (hu : Server.UniqueSessions l) (hmem : n ∈ l)
    (haddr : n.addr = addr) (hport : n.port = port) (hfresh : now - n.last_update < 120)
    (hlt : new_seq < n.seq) :
    (Server.update_clients l addr port new_seq now).2
        = [{ addr := addr, port := port, new_seq := new_seq, seq := n.seq }]
      ∧ { last_update := now, seq := new_seq, addr := addr, port := port }
          ∈ (Server.update_clients l addr port new_seq now).1
      ∧ ∀ m ∈ (Server.update_clients l addr port new_seq now).1,
          m.addr = addr → m.port = port → m.seq = new_seq ∧ m.last_update = now := by
  obtain ⟨pre, n2, post, rfl, hpre, hn2⟩ :=
    Server.split_first_match l addr port ⟨n, hmem, haddr, hport⟩
  have hkeys : (pre.map Server.Node.key ++ n2.key :: post.map Server.Node.key).Nodup := by
    simpa [Server.UniqueSessions] using hu
  have hpost : ∀ m ∈ post, ¬ Server.isFor addr port m := by
    intro m hm hfor
    have hnd := (List.nodup_append.mp hkeys).2.1
    have hnot := (List.nodup_cons.mp hnd).1
    apply hnot
    have hk : m.key = n2.key := by
      simp only [Server.Node.key, hfor.1, hfor.2, hn2.1, hn2.2]
    rw [← hk]
    exact List.mem_map.mpr ⟨m, hm, rfl⟩
  have hn : n = n2 := by
    rcases List.mem_append.mp hmem with h1 | h1
    · exact absurd ⟨haddr, hport⟩ (hpre n h1)
    · rcases List.mem_cons.mp h1 with h2 | h2
      · exact h2
      · exact absurd ⟨haddr, hport⟩ (hpost n h2)
  subst hn
  rw [Server.update_clients_first_match pre post n addr port new_seq now hpre hn2,
    Server.expire_fresh now n hfresh]
  refine ⟨?_, ?_, ?_⟩
  · simp only [hlt, if_true, haddr, hport]
  · simp only [haddr, hport]
    exact List.mem_append_right _ (List.mem_cons_self _ _)
  · intro m hm ha hp
    rcases List.mem_append.mp hm with h1 | h1
    · obtain ⟨x, hx, rfl⟩ := List.mem_map.mp h1
      rw [Server.expire_addr] at ha
      rw [Server.expire_port] at hp
      exact absurd ⟨ha, hp⟩ (hpre x hx)
    · rcases List.mem_cons.mp h1 with h2 | h2
      · rw [h2]
        exact ⟨rfl, rfl⟩
      · exact absurd ⟨ha, hp⟩ (hpost m h2)

/-- Witness of C12: sequence number 3 arrives 10 seconds after 7 was stored. -/
theorem C12_reordering_detected_witness :
    (Server.UniqueSessions [⟨0, 5, "10.0.0.2", "4000"⟩, ⟨90, 7, "10.0.0.1", "4000"⟩]
        ∧ (⟨90, 7, "10.0.0.1", "4000"⟩ : Server.Node)
            ∈ [(⟨0, 5, "10.0.0.2", "4000"⟩ : Server.Node), ⟨90, 7, "10.0.0.1", "4000"⟩]
        ∧ (100 : Int) - (⟨90, 7, "10.0.0.1", "4000"⟩ : Server.Node).last_update < 120
        ∧ (3 : Int) < (⟨90, 7, "10.0.0.1", "4000"⟩ : Server.Node).seq)
      ∧ (Server.update_clients [⟨0, 5, "10.0.0.2", "4000"⟩, ⟨90, 7, "10.0.0.1", "4000"⟩]
            "10.0.0.1" "4000" 3 100).2
          = [{ addr := "10.0.0.1", port := "4000", new_seq := 3,
               seq := (⟨90, 7, "10.0.0.1", "4000"⟩ : Server.Node).seq }]
      ∧ ({ last_update := 100, seq := 3, addr := "10.0.0.1", port := "4000" } : Server.Node)
          ∈ (Server.update_clients [⟨0, 5, "10.0.0.2", "4000"⟩, ⟨90, 7, "10.0.0.1", "4000"⟩]
              "10.0.0.1" "4000" 3 100).1
      ∧ ∀ m ∈ (Server.update_clients [⟨0, 5, "10.0.0.2", "4000"⟩, ⟨90, 7, "10.0.0.1", "4000"⟩]
              "10.0.0.1" "4000" 3 100).1,
          m.addr = "10.0.0.1" → m.port = "4000" → m.seq = 3 ∧ m.last_update = 100 :=
  ⟨⟨by simp [Server.UniqueSessions, Server.Node.key], by simp, by decide, by decide⟩,
    C12_reordering_detected [⟨0, 5, "10.0.0.2", "4000"⟩, ⟨90, 7, "10.0.0.1", "4000"⟩]
      ⟨90, 7, "10.0.0.1", "4000"⟩ "10.0.0.1" "4000" 3 100
      (by simp [Server.UniqueSessions, Server.Node.key]) (by simp) rfl rfl (by decide)
      (by decide)⟩

/-! ## The loss decision -/

/-- C15: with the draw `d = rand() % 101`, which lies in `0..100`, and a drop
percentage `p` (the options admit `0..100`), the server drops the datagram (no
response, the sessions untouched) if and only if `d < p`; with `p = 0` nothing
is dropped; with `p = 100` everything is dropped except at the draw `d = 100`. -/
theorem C15_loss_decision (e : Endian) (p : Nat) (condensed : Bool)
    (clients : List Server.Node) (inp : Server.Input) (d : List Byte)
    (hrecv : inp.recv = some d) :
    inp.rand % 101 ≤ 100
      ∧ (Server.dropped ⟨p, condensed⟩ inp.rand = true ↔ inp.rand % 101 < p)
      ∧ (inp.rand % 101 < p →
          Server.step e ⟨p, condensed⟩ clients inp
            = { clients := clients, sent := none, log := [] })
      ∧ (¬ inp.rand % 101 < p →
          (Server.step e ⟨p, condensed⟩ clients inp).sent ≠ none)
      ∧ (p = 0 → Server.dropped ⟨p, condensed⟩ inp.rand = false)
      ∧ (p = 100 → (Server.dropped ⟨p, condensed⟩ inp.rand = false ↔ inp.rand % 101 = 100)) := by
  have hd : inp.rand % 101 < 101 := Nat.mod_lt _ (by decide)
  refine ⟨by omega, by simp [Server.dropped], ?_, ?_, ?_, ?_⟩
  · intro h
    simp [Server.step, hrecv, Server.dropped, h]
  · intro h
    have hkeep : Server.dropped ⟨p, condensed⟩ inp.rand = false := by
      simp only [Server.dropped, decide_eq_false_iff_not]
      exact h
    rw [Server.step_sent e ⟨p, condensed⟩ clients inp d hrecv hkeep]
    simp
  · intro h0
    simp [Server.dropped, h0]
  · intro h100
    simp only [Server.dropped, decide_eq_false_iff_not, h100]
    omega

/-- Witness of C15: at 100 percent the draw 100 is let through. -/
theorem C15_loss_decision_witness :
    (⟨fun _ => 0, some [], "10.0.0.1", "4000", 100, 1, 2, fun _ => 0⟩ : Server.Input).recv
          = some []
      ∧ (⟨fun _ => 0, some [], "10.0.0.1", "4000", 100, 1, 2, fun _ => 0⟩ : Server.Input).rand
            % 101 ≤ 100
      ∧ (Server.dropped ⟨100, false⟩
            (⟨fun _ => 0, some [], "10.0.0.1", "4000", 100, 1, 2, fun _ => 0⟩ : Server.Input).rand
            = true
          ↔ (⟨fun _ => 0, some [], "10.0.0.1", "4000", 100, 1, 2, fun _ => 0⟩ : Server.Input).rand
            % 101 < 100)
      ∧ ((⟨fun _ => 0, some [], "10.0.0.1", "4000", 100, 1, 2, fun _ => 0⟩ : Server.Input).rand
            % 101 < 100 →
          Server.step .little ⟨100, false⟩ []
              ⟨fun _ => 0, some [], "10.0.0.1", "4000", 100, 1, 2, fun _ => 0⟩
            = { clients := [], sent := none, log := [] })
      ∧ (¬ (⟨fun _ => 0, some [], "10.0.0.1", "4000", 100, 1, 2, fun _ => 0⟩ : Server.Input).rand
            % 101 < 100 →
          (Server.step .little ⟨100, false⟩ []
              ⟨fun _ => 0, some [], "10.0.0.1", "4000", 100, 1, 2, fun _ => 0⟩).sent ≠ none)
      ∧ ((100 : Nat) = 0 → Server.dropped ⟨100, false⟩
            (⟨fun _ => 0, some [], "10.0.0.1", "4000", 100, 1, 2, fun _ => 0⟩ : Server.Input).rand
            = false)
      ∧ ((100 : Nat) = 100 → (Server.dropped ⟨100, false⟩
            (⟨fun _ => 0, some [], "10.0.0.1", "4000", 100, 1, 2, fun _ => 0⟩ : Server.Input).rand
            = false
          ↔ (⟨fun _ => 0, some [], "10.0.0.1", "4000", 100, 1, 2, fun _ => 0⟩ : Server.Input).rand
            % 101 = 100)) :=
  ⟨rfl,
    C15_loss_decision .little 100 false []
      ⟨fun _ => 0, some [], "10.0.0.1", "4000", 100, 1, 2, fun _ => 0⟩ [] rfl⟩

/-! ## The scan of the session list -/

theorem getElem?_after_middle {α : Type} (A A2 B : List α) (x y : α) (i : Nat)
    (hlen : A2.length = A.length) (hi : A.length < i) :
    (A2 ++ y :: B)[i]? = (A ++ x :: B)[i]? := by
  rw [List.getElem?_append_right (by omega), List.getElem?_append_right (by omega), hlen]
  obtain ⟨k, hk⟩ : ∃ k, i - A.length = k + 1 := ⟨i - A.length - 1, by omega⟩
  rw [hk, List.getElem?_cons_succ, List.getElem?_cons_succ]

/-- C16: in `update_clients`, (1) every session before the first one for
`(addr, port)` (every session, when there is none) keeps its address and port,
is reset to `seq = 0`, `last_update = now` when `now - last_update ≥ 120` and
is unchanged otherwise; (2) every session after the first match is unchanged;
(3) the sessions keep their positions: the list does not shrink and each
position still holds the session of the same (address, port). -/
theorem C16_expiry_confined_to_scan (l : List Server.Node) (addr port : String)
    (new_seq now : Int) :
    (∀ i m, i < Server.firstMatch addr port l → l[i]? = some m →
        ∃ m2, (Server.update_clients l addr port new_seq now).1[i]? = some m2
          ∧ m2.addr = m.addr ∧ m2.port = m.port
          ∧ (now - m.last_update ≥ 120 → m2.seq = 0 ∧ m2.last_update = now)
          ∧ (now - m.last_update < 120 → m2 = m))
      ∧ (∀ i, Server.firstMatch addr port l < i → i < l.length →
          (Server.update_clients l addr port new_seq now).1[i]? = l[i]?)
      ∧ l.length ≤ (Server.update_clients l addr port new_seq now).1.length
      ∧ (∀ i, i < l.length →
          ((Server.update_clients l addr port new_seq now).1[i]?).map Server.Node.key
            = (l[i]?).map Server.Node.key) := by
  have hexp : ∀ m : Server.Node,
      (Server.expire now m).addr = m.addr ∧ (Server.expire now m).port = m.port
        ∧ (now - m.last_update ≥ 120 →
            (Server.expire now m).seq = 0 ∧ (Server.expire now m).last_update = now)
        ∧ (now - m.last_update < 120 → Server.expire now m = m) := by
    intro m
    refine ⟨Server.expire_addr _ _, Server.expire_port _ _, ?_, Server.expire_fresh _ _⟩
    intro h
    rw [Server.expire_stale now m h]
    exact ⟨rfl, rfl⟩
  by_cases h : ∃ m ∈ l, Server.isFor addr port m
  · have hkeys := Server.update_clients_keys_match l addr port new_seq now h
    obtain ⟨pre, n, post, rfl, hpre, hn⟩ := Server.split_first_match l addr port h
    rw [Server.firstMatch_split pre post n addr port hpre hn] at *
    rw [Server.update_clients_first_match pre post n addr port new_seq now hpre hn] at *
    refine ⟨?_, ?_, by simp, ?_⟩
    · intro i m hi hm
      rw [List.getElem?_append_left hi] at hm
      refine ⟨Server.expire now m, ?_, hexp m⟩
      rw [List.getElem?_append_left (by simpa using hi), List.getElem?_map, hm]
      rfl
    · intro i hi _
      exact getElem?_after_middle pre _ post n _ i (by simp) hi
    · intro i _
      rw [← List.getElem?_map, ← List.getElem?_map, hkeys]
  · have hno : ∀ m ∈ l, ¬ Server.isFor addr port m := fun m hm hfor => h ⟨m, hm, hfor⟩
    have hkeys := Server.update_clients_keys_no_match l addr port new_seq now hno
    rw [Server.firstMatch_no_match l addr port hno] at *
    rw [Server.update_clients_no_match l addr port new_seq now hno] at *
    refine ⟨?_, ?_, by simp, ?_⟩
    · intro i m hi hm
      refine ⟨Server.expire now m, ?_, hexp m⟩
      rw [List.getElem?_append_left (by simpa using hi), List.getElem?_map, hm]
      rfl
    · intro i hi hi2
      omega
    · intro i hi
      rw [← List.getElem?_map, ← List.getElem?_map, hkeys,
        List.getElem?_append_left (by simpa using hi)]

/-- C17: without a session for `(addr, port)`, `update_clients` returns one
more session, the new one last, holding `addr`, `port`, `new_seq` and `now`,
the sessions before it being those of the pairs that were there, and prints
nothing; with a session for `(addr, port)` the number of sessions is unchanged. -/
theorem C17_session_creation (l : List Server.Node) (addr port : String) (new_seq now : Int) :
    ((∀ m ∈ l, ¬ (m.addr = addr ∧ m.port = port)) →
        (Server.update_clients l addr port new_seq now).1.length = l.length + 1
          ∧ (Server.update_clients l addr port new_seq now).1.getLast?
              = some { last_update := now, seq := new_seq, addr := addr, port := port }
          ∧ (Server.update_clients l addr port new_seq now).1.dropLast.map Server.Node.key
              = l.map Server.Node.key
          ∧ (Server.update_clients l addr port new_seq now).2 = [])
      ∧ ((∃ m ∈ l, m.addr = addr ∧ m.port = port) →
          (Server.update_clients l addr port new_seq now).1.length = l.length) := by
  constructor
  · intro hno
    rw [Server.update_clients_no_match l addr port new_seq now hno]
    refine ⟨by simp, List.getLast?_concat _, ?_, rfl⟩
    simp [Server.Node.key, Server.expire_addr, Server.expire_port]
  · intro h
    have hk := congrArg List.length (Server.update_clients_keys_match l addr port new_seq now h)
    simpa using hk

/-- Witness of C17: a packet from a new port, then one from the known port. -/
theorem C17_session_creation_witness :
    (∀ m ∈ [(⟨0, 5, "10.0.0.1", "4000"⟩ : Server.Node)],
        ¬ (m.addr = "10.0.0.1" ∧ m.port = "4001"))
      ∧ ((Server.update_clients [⟨0, 5, "10.0.0.1", "4000"⟩] "10.0.0.1" "4001" 9 50).1.length
            = [(⟨0, 5, "10.0.0.1", "4000"⟩ : Server.Node)].length + 1
          ∧ (Server.update_clients [⟨0, 5, "10.0.0.1", "4000"⟩] "10.0.0.1" "4001" 9 50).1.getLast?
              = some { last_update := 50, seq := 9, addr := "10.0.0.1", port := "4001" }
          ∧ (Server.update_clients [⟨0, 5, "10.0.0.1", "4000"⟩] "10.0.0.1" "4001" 9
                50).1.dropLast.map Server.Node.key
              = [(⟨0, 5, "10.0.0.1", "4000"⟩ : Server.Node)].map Server.Node.key
          ∧ (Server.update_clients [⟨0, 5, "10.0.0.1", "4000"⟩] "10.0.0.1" "4001" 9 50).2 = [])
      ∧ (∃ m ∈ [(⟨0, 5, "10.0.0.1", "4000"⟩ : Server.Node)],
          m.addr = "10.0.0.1" ∧ m.port = "4000")
      ∧ (Server.update_clients [⟨0, 5, "10.0.0.1", "4000"⟩] "10.0.0.1" "4000" 9 50).1.length
          = [(⟨0, 5, "10.0.0.1", "4000"⟩ : Server.Node)].length :=
  ⟨by simp,
    (C17_session_creation [⟨0, 5, "10.0.0.1", "4000"⟩] "10.0.0.1" "4001" 9 50).1 (by simp),
    ⟨⟨0, 5, "10.0.0.1", "4000"⟩, by simp, rfl, rfl⟩,
    (C17_session_creation [⟨0, 5, "10.0.0.1", "4000"⟩] "10.0.0.1" "4000" 9 50).2
      ⟨⟨0, 5, "10.0.0.1", "4000"⟩, by simp, rfl, rfl⟩⟩

/-- Witness of C16: a stale session before the match is reset, a fresh one
before it and a stale one after it are kept as they are. -/
theorem C16_expiry_confined_to_scan_witness :
    (∃ m2, (Server.update_clients
          [⟨0, 5, "10.0.0.1", "4000"⟩, ⟨150, 6, "10.0.0.2", "4000"⟩,
            ⟨190, 7, "10.0.0.3", "4000"⟩, ⟨0, 8, "10.0.0.4", "4000"⟩]
          "10.0.0.3" "4000" 9 200).1[0]? = some m2
        ∧ m2.addr = "10.0.0.1" ∧ m2.port = "4000"
        ∧ ((200 : Int) - 0 ≥ 120 → m2.seq = 0 ∧ m2.last_update = 200)
        ∧ ((200 : Int) - 0 < 120 → m2 = ⟨0, 5, "10.0.0.1", "4000"⟩))
      ∧ (Server.update_clients
          [⟨0, 5, "10.0.0.1", "4000"⟩, ⟨150, 6, "10.0.0.2", "4000"⟩,
            ⟨190, 7, "10.0.0.3", "4000"⟩, ⟨0, 8, "10.0.0.4", "4000"⟩]
          "10.0.0.3" "4000" 9 200).1[3]?
        = [(⟨0, 5, "10.0.0.1", "4000"⟩ : Server.Node), ⟨150, 6, "10.0.0.2", "4000"⟩,
            ⟨190, 7, "10.0.0.3", "4000"⟩, ⟨0, 8, "10.0.0.4", "4000"⟩][3]? :=
  ⟨(C16_expiry_confined_to_scan
      [⟨0, 5, "10.0.0.1", "4000"⟩, ⟨150, 6, "10.0.0.2", "4000"⟩,
        ⟨190, 7, "10.0.0.3", "4000"⟩, ⟨0, 8, "10.0.0.4", "4000"⟩]
      "10.0.0.3" "4000" 9 200).1 0 ⟨0, 5, "10.0.0.1", "4000"⟩ (by decide) rfl,
    (C16_expiry_confined_to_scan
      [⟨0, 5, "10.0.0.1", "4000"⟩, ⟨150, 6, "10.0.0.2", "4000"⟩,
        ⟨190, 7, "10.0.0.3", "4000"⟩, ⟨0, 8, "10.0.0.4", "4000"⟩]
      "10.0.0.3" "4000" 9 200).2.1 3 (by decide) (by decide)⟩

/-! ## The version field on the server -/

theorem Server.decodeRequest_congr (e : Endian) (condensed : Bool) (b1 b2 : List Byte)
    (hseq : readAt b1 0 4 = readAt b2 0 4)
    (hsec : readAt b1 (if condensed then 6 else 8) 8 = readAt b2 (if condensed then 6 else 8) 8)
    (hnsec : readAt b1 (if condensed then 14 else 16) 8
      = readAt b2 (if condensed then 14 else 16) 8) :
    Server.decodeRequest e condensed b1 = Server.decodeRequest e condensed b2 := by
  cases condensed <;> simp only [Bool.false_eq_true, if_false, if_true] at hsec hnsec <;>
    simp only [Server.decodeRequest, Bool.false_eq_true, if_false, if_true, hseq, hsec, hnsec]

theorem readAt_of_drop_eq (b1 b2 : List Byte) (off off2 k : Nat) (h : b1.drop off = b2.drop off)
    (hle : off ≤ off2) : readAt b1 off2 k = readAt b2 off2 k := by
  obtain ⟨j, rfl⟩ : ∃ j, off2 = off + j := ⟨off2 - off, by omega⟩
  unfold readAt
  rw [← List.drop_drop, ← List.drop_drop, h]

theorem Server.versionField_of_response (condensed : Bool) (a r : List Byte)
    (ha : a.length = 4) :
    readAt (a ++ versionField condensed ++ r) 4 (if condensed then 2 else 4)
      = versionField condensed := by
  unfold readAt
  rw [List.append_assoc, List.drop_append_of_le_length (by omega),
    List.drop_of_length_le (le_of_eq ha), List.nil_append]
  cases condensed <;> simp [versionField, BE16, BE32]

/-- C18: two full-length requests of the same format that agree outside the
version field, from the same sender, with the same draw and clock reading and
on the same session list, have the same effect: the same response, sessions
and printed lines; the version field of the response is the constant 7. -/
theorem C18_version_ignored (e : Endian) (args : Server.Args) (clients : List Server.Node)
    (inp1 inp2 : Server.Input) (d1 d2 : List Byte)
    (h1 : inp1.recv = some d1) (h2 : inp2.recv = some d2)
    (hl1 : d1.length = Server.recv_len args.condensed)
    (hl2 : d2.length = Server.recv_len args.condensed)
    (hseq : d1.take 4 = d2.take 4)
    (htail : d1.drop (if args.condensed then 6 else 8)
      = d2.drop (if args.condensed then 6 else 8))
    (haddr : inp1.addr = inp2.addr) (hport : inp1.port = inp2.port)
    (hrand : inp1.rand = inp2.rand) (hsec : inp1.tv_sec = inp2.tv_sec)
    (hnsec : inp1.tv_nsec = inp2.tv_nsec) :
    Server.step e args clients inp1 = Server.step e args clients inp2
      ∧ ∀ resp, (Server.step e args clients inp1).sent = some resp →
          readAt resp 4 (if args.condensed then 2 else 4)
            = (if args.condensed then BE16 7 else BE32 7) := by
  have hdec : Server.decodeRequest e args.condensed
        (Server.recvBuffer args.condensed inp1.stale d1)
      = Server.decodeRequest e args.condensed
        (Server.recvBuffer args.condensed inp2.stale d2) := by
    rw [Server.requestBuffer_full _ _ _ (le_of_eq hl1.symm),
      Server.requestBuffer_full _ _ _ (le_of_eq hl2.symm),
      List.take_of_length_le (le_of_eq hl1), List.take_of_length_le (le_of_eq hl2)]
    apply Server.decodeRequest_congr
    · simpa [readAt] using hseq
    · exact readAt_of_drop_eq d1 d2 _ _ 8 htail (le_refl _)
    · exact readAt_of_drop_eq d1 d2 _ _ 8 htail (by cases args.condensed <;> simp)
  cases hdrop : Server.dropped args inp1.rand with
  | true =>
    have hdrop2 : Server.dropped args inp2.rand = true := by rw [← hrand]; exact hdrop
    constructor
    · simp [Server.step, h1, h2, hdrop, hdrop2]
    · intro resp hresp
      simp [Server.step, h1, hdrop] at hresp
  | false =>
    have hdrop2 : Server.dropped args inp2.rand = false := by rw [← hrand]; exact hdrop
    rw [Server.step_sent e args clients inp1 d1 h1 hdrop,
      Server.step_sent e args clients inp2 d2 h2 hdrop2, hdec, haddr, hport, hsec, hnsec,
      Server.encodeResponse_eq, Server.encodeResponse_eq]
    refine ⟨rfl, ?_⟩
    intro resp hresp
    simp only [Option.some.injEq] at hresp
    rw [← hresp]
    have hv := Server.versionField_of_response args.condensed
      (BE32 (Server.decodeRequest e args.condensed
        (Server.recvBuffer args.condensed inp2.stale d2)).client_seq)
      (store e 8 (Server.decodeRequest e args.condensed
          (Server.recvBuffer args.condensed inp2.stale d2)).csec_nb
        ++ store e 8 (Server.decodeRequest e args.condensed
          (Server.recvBuffer args.condensed inp2.stale d2)).cnsec_nb
        ++ BE64 inp2.tv_sec ++ BE64 inp2.tv_nsec) (BE32_length _)
    simp only [List.append_assoc] at hv ⊢
    rw [hv]
    cases args.condensed <;> rfl

/-- Witness of C18: two standard requests numbered 3, one with version 7, one
with version 99. -/
theorem C18_version_ignored_witness :
    ((BE32 3 ++ BE32 7 ++ BE64 10 ++ BE64 20).length = Server.recv_len false
        ∧ (BE32 3 ++ BE32 99 ++ BE64 10 ++ BE64 20).length = Server.recv_len false
        ∧ (BE32 3 ++ BE32 7 ++ BE64 10 ++ BE64 20).take 4
            = (BE32 3 ++ BE32 99 ++ BE64 10 ++ BE64 20).take 4
        ∧ (BE32 3 ++ BE32 7 ++ BE64 10 ++ BE64 20).drop 8
            = (BE32 3 ++ BE32 99 ++ BE64 10 ++ BE64 20).drop 8)
      ∧ Server.step .little ⟨0, false⟩ []
            ⟨fun _ => 0, some (BE32 3 ++ BE32 7 ++ BE64 10 ++ BE64 20), "10.0.0.1", "4000", 5,
              30, 40, fun _ => 0⟩
          = Server.step .little ⟨0, false⟩ []
            ⟨fun _ => 1, some (BE32 3 ++ BE32 99 ++ BE64 10 ++ BE64 20), "10.0.0.1", "4000", 5,
              30, 40, fun _ => 2⟩
      ∧ ∀ resp, (Server.step .little ⟨0, false⟩ []
            ⟨fun _ => 0, some (BE32 3 ++ BE32 7 ++ BE64 10 ++ BE64 20), "10.0.0.1", "4000", 5,
              30, 40, fun _ => 0⟩).sent = some resp →
          readAt resp 4 (if (⟨0, false⟩ : Server.Args).condensed then 2 else 4)
            = (if (⟨0, false⟩ : Server.Args).condensed then BE16 7 else BE32 7) :=
  ⟨by decide,
    C18_version_ignored .little ⟨0, false⟩ []
      ⟨fun _ => 0, some (BE32 3 ++ BE32 7 ++ BE64 10 ++ BE64 20), "10.0.0.1", "4000", 5, 30, 40,
        fun _ => 0⟩
      ⟨fun _ => 1, some (BE32 3 ++ BE32 99 ++ BE64 10 ++ BE64 20), "10.0.0.1", "4000", 5, 30,
        40, fun _ => 2⟩
      (BE32 3 ++ BE32 7 ++ BE64 10 ++ BE64 20) (BE32 3 ++ BE32 99 ++ BE64 10 ++ BE64 20)
      rfl rfl (by decide) (by decide) (by decide) (by decide) rfl rfl rfl rfl rfl⟩

/-! ## Sequence numbers from `2 ^ 31` on -/

theorem toInt32_of_lt (x : Nat) (h : x < 2 ^ 31) : toInt32 x = (x : Int) := by
  have h1 : x % 2 ^ 32 = x := Nat.mod_eq_of_lt (by omega)
  simp only [toInt32, h1, h, if_true]

theorem toInt32_of_ge (x : Nat) (h1 : 2 ^ 31 ≤ x) (h2 : x < 2 ^ 32) :
    toInt32 x = (x : Int) - 2 ^ 32 := by
  have h3 : x % 2 ^ 32 = x := Nat.mod_eq_of_lt h2
  have h4 : ¬ x < 2 ^ 31 := by omega
  simp only [toInt32, h3, h4, if_false]

/-- A session that is 120 seconds old is compared at `seq = 0`: a line is
printed exactly when the `int` handed to `update_clients` is negative. -/
theorem Server.update_clients_stale_match (pre post : List Server.Node) (n : Server.Node)
    (addr port : String) (s t : Int) (hpre : ∀ m ∈ pre, ¬ Server.isFor addr port m)
    (hn : Server.isFor addr port n) (hstale : t - n.last_update ≥ 120) :
    (Server.update_clients (pre ++ n :: post) addr port s t).2
      = if s < 0 then [{ addr := n.addr, port := n.port, new_seq := s, seq := 0 }] else [] := by
  rw [Server.update_clients_first_match pre post n addr port s t hpre hn,
    Server.expire_stale t n hstale]

/-- C13 at a sequence number of `2 ^ 31`: a session last updated 120 seconds
ago receives the request numbered `0x80000000`.  The counter is reset to 0,
but the number reaches `update_clients` as the `int` -2147483648, so a line is
printed and the session keeps -2147483648. -/
theorem C13_stale_session_wraparound :
    (120 : Int) - (⟨0, 5, "10.0.0.1", "4000"⟩ : Server.Node).last_update ≥ 120
      ∧ Server.requestSeq .little false (Scenario.request (2 ^ 31) 120) = 2147483648
      ∧ (Server.step .little ⟨0, false⟩ [⟨0, 5, "10.0.0.1", "4000"⟩]
          (Scenario.request (2 ^ 31) 120)).log
        = [{ addr := "10.0.0.1", port := "4000", new_seq := -2147483648, seq := 0 }]
      ∧ (Server.step .little ⟨0, false⟩ [⟨0, 5, "10.0.0.1", "4000"⟩]
          (Scenario.request (2 ^ 31) 120)).clients
        = [⟨120, -2147483648, "10.0.0.1", "4000"⟩] := by
  decide

/-- C11 at the step from `2 ^ 31 - 1` to `2 ^ 31`: two requests from one
sender, one second apart, numbered `0x7fffffff` and `0x80000000`.  The second
number reaches `update_clients` as the `int` -2147483648, which is less than
the stored 2147483647, so a line is printed. -/
theorem C11_increasing_wraparound :
    Server.requestSeq .little false (Scenario.request (2 ^ 31 - 1) 100) = 2147483647
      ∧ Server.requestSeq .little false (Scenario.request (2 ^ 31) 101) = 2147483648
      ∧ (Server.loop .little ⟨0, false⟩ []
          [Scenario.request (2 ^ 31 - 1) 100, Scenario.request (2 ^ 31) 101]).map
            (fun o => o.log)
        = [[], [{ addr := "10.0.0.1", port := "4000", new_seq := -2147483648,
                  seq := 2147483647 }]] := by
  decide

/-- Below `2 ^ 31` the conversion to `int` keeps the order, and requests from
one sender with increasing numbers, each less than 120 seconds after the one
before, print nothing: the session list stays the single session of the sender. -/
theorem Server.loop_in_order_below (e : Endian) (args : Server.Args) (addr port : String)
    (inputs : List Server.Input) (s0 t0 : Int)
    (hgood : ∀ inp ∈ inputs, inp.addr = addr ∧ inp.port = port ∧ (∃ d, inp.recv = some d)
      ∧ Server.dropped args inp.rand = false
      ∧ Server.requestSeq e args.condensed inp < 2 ^ 31)
    (hchain : List.Chain' (fun a b : Server.Input =>
      Server.requestSeq e args.condensed a < Server.requestSeq e args.condensed b
        ∧ (b.tv_sec : Int) - (a.tv_sec : Int) < 120) inputs)
    (hhead : ∀ inp ∈ inputs.head?,
      s0 < (Server.requestSeq e args.condensed inp : Int) ∧ (inp.tv_sec : Int) - t0 < 120) :
    ∀ o ∈ Server.loop e args [⟨t0, s0, addr, port⟩] inputs, o.log = [] := by
  induction inputs generalizing s0 t0 with
  | nil =>
    intro o ho
    cases ho
  | cons inp rest ih =>
    obtain ⟨haddr, hport, ⟨d, hrecv⟩, hkeep, hlt⟩ := hgood inp (List.mem_cons_self _ _)
    obtain ⟨hs, ht⟩ := hhead inp rfl
    have hseq : (Server.decodeRequest e args.condensed
        (Server.recvBuffer args.condensed inp.stale d)).client_seq
        = Server.requestSeq e args.condensed inp := by
      simp only [Server.requestSeq, hrecv]
    have hupd : Server.update_clients [⟨t0, s0, addr, port⟩] inp.addr inp.port
        (toInt32 (Server.requestSeq e args.condensed inp)) inp.tv_sec
        = ([⟨inp.tv_sec, Server.requestSeq e args.condensed inp, addr, port⟩], []) := by
      have h := Server.update_clients_first_match [] [] ⟨t0, s0, addr, port⟩ inp.addr inp.port
        (toInt32 (Server.requestSeq e args.condensed inp)) inp.tv_sec
        (fun m hm => by cases hm) ⟨haddr.symm, hport.symm⟩
      have hnot : ¬ ((Server.requestSeq e args.condensed inp : Nat) : Int) < s0 := by omega
      rw [Server.expire_fresh _ _ (by simpa using ht), toInt32_of_lt _ hlt, if_neg hnot] at h
      rw [toInt32_of_lt _ hlt]
      exact h
    intro o ho
    rw [Server.loop, Server.step_sent e args _ inp d hrecv hkeep, hseq, hupd] at ho
    rcases List.mem_cons.mp ho with heq | hrest
    · rw [heq]
    · refine ih _ _ (fun x hx => hgood x (List.mem_cons_of_mem _ hx)) hchain.tail ?_ o hrest
      intro y hy
      have hrel := hchain.rel_head? hy
      exact ⟨by omega, hrel.2⟩

/-- The same from the empty session list. -/
theorem Server.loop_in_order_below_from_empty (e : Endian) (args : Server.Args)
    (addr port : String) (inputs : List Server.Input)
    (hgood : ∀ inp ∈ inputs, inp.addr = addr ∧ inp.port = port ∧ (∃ d, inp.recv = some d)
      ∧ Server.dropped args inp.rand = false
      ∧ Server.requestSeq e args.condensed inp < 2 ^ 31)
    (hchain : List.Chain' (fun a b : Server.Input =>
      Server.requestSeq e args.condensed a < Server.requestSeq e args.condensed b
        ∧ (b.tv_sec : Int) - (a.tv_sec : Int) < 120) inputs) :
    ∀ o ∈ Server.loop e args [] inputs, o.log = [] := by
  cases inputs with
  | nil =>
    intro o ho
    cases ho
  | cons inp rest =>
    obtain ⟨haddr, hport, ⟨d, hrecv⟩, hkeep, hlt⟩ := hgood inp (List.mem_cons_self _ _)
    have hseq : (Server.decodeRequest e args.condensed
        (Server.recvBuffer args.condensed inp.stale d)).client_seq
        = Server.requestSeq e args.condensed inp := by
      simp only [Server.requestSeq, hrecv]
    intro o ho
    rw [Server.loop, Server.step_sent e args _ inp d hrecv hkeep, hseq] at ho
    rcases List.mem_cons.mp ho with heq | hrest
    · rw [heq]
      rfl
    · have hfirst : (Server.update_clients [] inp.addr inp.port
          (toInt32 (Server.requestSeq e args.condensed inp)) inp.tv_sec).1
          = [⟨inp.tv_sec, Server.requestSeq e args.condensed inp, addr, port⟩] := by
        simp [Server.update_clients, toInt32_of_lt _ hlt, haddr, hport]
      simp only [hfirst] at hrest
      refine Server.loop_in_order_below e args addr port rest _ _
        (fun x hx => hgood x (List.mem_cons_of_mem _ hx)) hchain.tail ?_ o hrest
      intro y hy
      have hrel := hchain.rel_head? hy
      exact ⟨by omega, hrel.2⟩

/-! ## The receive phase as a whole -/

theorem Client.recvLoop_processed (e : Endian) (condensed : Bool) (N : Nat)
    (inputs : List Client.RecvInput) (responses : List Client.Response) :
    Client.recvLoop e condensed N inputs responses
      = Client.recvLoop e condensed N (Client.processed inputs) responses := by
  induction inputs generalizing responses with
  | nil => rfl
  | cons inp rest ih =>
    cases hrecv : inp.recv with
    | none =>
      have hp : Client.processed (inp :: rest) = [] := by
        simp [Client.processed, hrecv]
      rw [hp]
      simp only [Client.recvLoop, hrecv]
    | some d =>
      have hp : Client.processed (inp :: rest) = inp :: Client.processed rest := by
        simp [Client.processed, hrecv]
      rw [hp]
      simp only [Client.recvLoop, hrecv]
      exact ih _

theorem Client.processed_isSome (inputs : List Client.RecvInput) (inp : Client.RecvInput)
    (h : inp ∈ Client.processed inputs) : ∃ d, inp.recv = some d := by
  have h2 := List.mem_takeWhile_imp h
  exact Option.isSome_iff_exists.mp h2

theorem Client.processed_subset (inputs : List Client.RecvInput) (inp : Client.RecvInput)
    (h : inp ∈ Client.processed inputs) : inp ∈ inputs :=
  (List.takeWhile_sublist _).subset h

theorem Client.recvLoop_append (e : Endian) (condensed : Bool) (N : Nat)
    (xs ys : List Client.RecvInput) (responses : List Client.Response)
    (hxs : ∀ inp ∈ xs, ∃ d, inp.recv = some d) :
    Client.recvLoop e condensed N (xs ++ ys) responses
      = Client.recvLoop e condensed N ys (Client.recvLoop e condensed N xs responses) := by
  induction xs generalizing responses with
  | nil => rfl
  | cons inp rest ih =>
    obtain ⟨d, hd⟩ := hxs inp (List.mem_cons_self _ _)
    simp only [List.cons_append, Client.recvLoop, hd]
    exact ih _ (fun x hx => hxs x (List.mem_cons_of_mem _ hx))

/-- A datagram that does not carry `j + 1` leaves slot `j` as it was. -/
theorem Client.processDatagram_other (e : Endian) (condensed : Bool) (N : Nat)
    (stale : Nat → Byte) (d : List Byte) (sec2 nsec2 : Nat) (responses : List Client.Response)
    (j : Nat)
    (h : (Client.decodeResponse e condensed (Client.recvBuffer condensed stale d)).seq ≠ j + 1) :
    (Client.processDatagram e condensed N stale d sec2 nsec2 responses)[j]? = responses[j]? := by
  unfold Client.processDatagram Client.storeResult
  split
  · rfl
  · rename_i hcond
    rw [List.getElem?_set_ne (by omega)]

theorem Client.recvLoop_other (e : Endian) (condensed : Bool) (N : Nat)
    (inputs : List Client.RecvInput) (responses : List Client.Response) (j : Nat)
    (h : ∀ inp ∈ Client.processed inputs, Client.decodedSeq e condensed inp ≠ some (j + 1)) :
    (Client.recvLoop e condensed N inputs responses)[j]? = responses[j]? := by
  induction inputs generalizing responses with
  | nil => rfl
  | cons inp rest ih =>
    cases hrecv : inp.recv with
    | none => simp only [Client.recvLoop, hrecv]
    | some d =>
      have hp : Client.processed (inp :: rest) = inp :: Client.processed rest := by
        simp [Client.processed, hrecv]
      rw [hp] at h
      simp only [Client.recvLoop, hrecv]
      rw [ih _ (fun x hx => h x (List.mem_cons_of_mem _ hx))]
      apply Client.processDatagram_other
      have h1 := h inp (List.mem_cons_self _ _)
      simp only [Client.decodedSeq, hrecv, Option.map_some', ne_eq, Option.some.injEq] at h1
      exact h1

theorem split_last_such {α : Type} (P : α → Prop) (l : List α) (h : ∃ x ∈ l, P x) :
    ∃ before x after, l = before ++ x :: after ∧ P x ∧ ∀ y ∈ after, ¬ P y := by
  induction l with
  | nil =>
    obtain ⟨x, hx, _⟩ := h
    cases hx
  | cons a rest ih =>
    by_cases hrest : ∃ x ∈ rest, P x
    · obtain ⟨before, x, after, hl, hx, hafter⟩ := ih hrest
      exact ⟨a :: before, x, after, by rw [hl]; rfl, hx, hafter⟩
    · obtain ⟨x, hx, hPx⟩ := h
      rcases List.mem_cons.mp hx with heq | hx2
      · exact ⟨[], a, rest, rfl, heq ▸ hPx, fun y hy hPy => hrest ⟨y, hy, hPy⟩⟩
      · exact absurd ⟨x, hx2, hPx⟩ hrest

/-- The slot of `j + 1` after the loop is the one written for the last
processed datagram that carries `j + 1`. -/
theorem Client.recvLoop_last (e : Endian) (condensed : Bool) (N : Nat) (hN : N < 2 ^ 31)
    (inputs before after : List Client.RecvInput) (inp : Client.RecvInput) (d : List Byte)
    (responses : List Client.Response) (hlen : responses.length = N) (j : Nat) (hj : j < N)
    (hsplit : Client.processed inputs = before ++ inp :: after)
    (hrecv : inp.recv = some d)
    (hseq : Client.decodedSeq e condensed inp = some (j + 1))
    (hafter : ∀ y ∈ after, Client.decodedSeq e condensed y ≠ some (j + 1)) :
    (Client.recvLoop e condensed N inputs responses)[j]?
      = some
          { seq := j + 1
            theta :=
              ((Client.instant
                    (Client.decodeResponse e condensed
                      (Client.recvBuffer condensed inp.stale d)).serv_sec
                    (Client.decodeResponse e condensed
                      (Client.recvBuffer condensed inp.stale d)).serv_nsec
                  - Client.instant
                    (Client.decodeResponse e condensed
                      (Client.recvBuffer condensed inp.stale d)).client_sec1
                    (Client.decodeResponse e condensed
                      (Client.recvBuffer condensed inp.stale d)).client_nsec1)
                + (Client.instant
                    (Client.decodeResponse e condensed
                      (Client.recvBuffer condensed inp.stale d)).serv_sec
                    (Client.decodeResponse e condensed
                      (Client.recvBuffer condensed inp.stale d)).serv_nsec
                  - Client.instant inp.sec2 inp.nsec2)) / 2
            delta := Client.instant inp.sec2 inp.nsec2
              - Client.instant
                  (Client.decodeResponse e condensed
                    (Client.recvBuffer condensed inp.stale d)).client_sec1
                  (Client.decodeResponse e condensed
                    (Client.recvBuffer condensed inp.stale d)).client_nsec1 } := by
  have hd : (Client.decodeResponse e condensed (Client.recvBuffer condensed inp.stale d)).seq
      = j + 1 := by
    simpa [Client.decodedSeq, hrecv] using hseq
  have hbefore : ∀ x ∈ before, ∃ d, x.recv = some d := by
    intro x hx
    apply Client.processed_isSome inputs x
    rw [hsplit]
    exact List.mem_append_left _ hx
  rw [Client.recvLoop_processed, hsplit, Client.recvLoop_append _ _ _ _ _ _ hbefore]
  simp only [Client.recvLoop, hrecv]
  rw [Client.recvLoop_other e condensed N after _ j
    (fun y hy => hafter y (Client.processed_subset after y hy))]
  rw [Client.processDatagram,
    Client.storeResult_in_range N _ inp.sec2 inp.nsec2 _ hN (by omega) (by omega), hd]
  simp only [Nat.add_sub_cancel]
  rw [List.getElem?_set_eq_of_lt _ (by rw [Client.recvLoop_length, hlen]; exact hj)]

theorem Client.report_dropped (N : Nat) (responses : List Client.Response) (i : Nat)
    (hi : i < N) (r : Client.Response) (hr : responses[i]? = some r) (hseq : r.seq = 0) :
    (Client.report N responses)[i]? = some (.dropped (i + 1)) := by
  simp [Client.report, Client.reportLine, List.getD, hr, hi, hseq]

theorem Client.emptyTable_getElem (N i : Nat) (hi : i < N) :
    (Client.emptyTable N)[i]? = some { seq := 0, theta := 0, delta := 0 } := by
  simp [Client.emptyTable, hi]

/-- C19: the table after the receive phase depends only on the iterations among
the first `N` that come before the first failed `recvfrom`, which are at most
`N` whatever the datagrams hold; when none of them carries `j + 1`, slot `j` is
still zero and line `j + 1` of the report reads "Dropped", whatever arrives
later. -/
theorem C19_receive_phase_bounded (e : Endian) (condensed : Bool) (N : Nat)
    (env env2 : Nat → Client.RecvInput) (j : Nat) :
    (Client.processed ((List.range N).map env)).length ≤ N
      ∧ (Client.processed ((List.range N).map env) = Client.processed ((List.range N).map env2) →
          Client.recvPhase e condensed N env = Client.recvPhase e condensed N env2)
      ∧ (j < N →
          (∀ inp ∈ Client.processed ((List.range N).map env),
            Client.decodedSeq e condensed inp ≠ some (j + 1)) →
          (Client.recvPhase e condensed N env)[j]? = some { seq := 0, theta := 0, delta := 0 }
            ∧ (Client.report N (Client.recvPhase e condensed N env))[j]?
                = some (.dropped (j + 1))) := by
  refine ⟨?_, ?_, ?_⟩
  · have h := (List.takeWhile_sublist (fun inp : Client.RecvInput => inp.recv.isSome)
      (l := (List.range N).map env)).length_le
    simpa [Client.processed] using h
  · intro h
    rw [Client.recvPhase, Client.recvPhase, Client.recvLoop_processed, h,
      ← Client.recvLoop_processed]
  · intro hj hnone
    have hslot : (Client.recvPhase e condensed N env)[j]?
        = some { seq := 0, theta := 0, delta := 0 } := by
      rw [Client.recvPhase, Client.recvLoop_other e condensed N _ _ j hnone,
        Client.emptyTable_getElem N j hj]
    exact ⟨hslot, Client.report_dropped N _ j hj _ hslot rfl⟩

/-- Witness of C19: two requests; the response numbered 1 arrives twice, the
response numbered 2 arrives third and is not read: line 2 reads "Dropped". -/
theorem C19_receive_phase_bounded_witness :
    Client.decodedSeq .little false (Scenario.lateEnv 2) = some 2
      ∧ (1 < 2
        ∧ ∀ inp ∈ Client.processed ((List.range 2).map Scenario.lateEnv),
            Client.decodedSeq .little false inp ≠ some (1 + 1))
      ∧ (Client.recvPhase .little false 2 Scenario.lateEnv)[1]?
          = some { seq := 0, theta := 0, delta := 0 }
      ∧ (Client.report 2 (Client.recvPhase .little false 2 Scenario.lateEnv))[1]?
          = some (.dropped (1 + 1)) :=
  have hnone : ∀ inp ∈ Client.processed ((List.range 2).map Scenario.lateEnv),
      Client.decodedSeq .little false inp ≠ some (1 + 1) := by decide
  ⟨by decide, ⟨by decide, hnone⟩,
    (C19_receive_phase_bounded .little false 2 Scenario.lateEnv Scenario.lateEnv 1).2.2
      (by decide) hnone⟩

/-- C20: starting from the zeroed table of length `N`, after any sequence of
receive outcomes slot `i` holds `seq = 0` or `seq = i + 1`; line `i + 1` of the
report reads "Dropped" exactly when no processed datagram carried `i + 1`, and
otherwise shows `theta` and `delta` computed from the last processed datagram
that carried `i + 1`. -/
theorem C20_result_table_invariant (e : Endian) (condensed : Bool) (N : Nat)
    (inputs : List Client.RecvInput) (i : Nat) (hN : N < 2 ^ 31) (hi : i < N) :
    (∃ r, (Client.recvLoop e condensed N inputs (Client.emptyTable N))[i]? = some r
        ∧ (r.seq = 0 ∨ r.seq = i + 1))
      ∧ ((Client.report N (Client.recvLoop e condensed N inputs (Client.emptyTable N)))[i]?
            = some (.dropped (i + 1))
          ↔ ∀ inp ∈ Client.processed inputs, Client.decodedSeq e condensed inp ≠ some (i + 1))
      ∧ (∀ before inp after d, Client.processed inputs = before ++ inp :: after →
          inp.recv = some d → Client.decodedSeq e condensed inp = some (i + 1) →
          (∀ y ∈ after, Client.decodedSeq e condensed y ≠ some (i + 1)) →
          (Client.report N (Client.recvLoop e condensed N inputs (Client.emptyTable N)))[i]?
            = some (.result (i + 1)
                ((((((Client.decodeResponse e condensed
                        (Client.recvBuffer condensed inp.stale d)).serv_sec : ℚ)
                      + ((Client.decodeResponse e condensed
                        (Client.recvBuffer condensed inp.stale d)).serv_nsec : ℚ) / 10 ^ 9)
                    - (((Client.decodeResponse e condensed
                        (Client.recvBuffer condensed inp.stale d)).client_sec1 : ℚ)
                      + ((Client.decodeResponse e condensed
                        (Client.recvBuffer condensed inp.stale d)).client_nsec1 : ℚ) / 10 ^ 9))
                  + ((((Client.decodeResponse e condensed
                        (Client.recvBuffer condensed inp.stale d)).serv_sec : ℚ)
                      + ((Client.decodeResponse e condensed
                        (Client.recvBuffer condensed inp.stale d)).serv_nsec : ℚ) / 10 ^ 9)
                    - ((inp.sec2 : ℚ) + (inp.nsec2 : ℚ) / 10 ^ 9))) / 2)
                (((inp.sec2 : ℚ) + (inp.nsec2 : ℚ) / 10 ^ 9)
                  - (((Client.decodeResponse e condensed
                        (Client.recvBuffer condensed inp.stale d)).client_sec1 : ℚ)
                      + ((Client.decodeResponse e condensed
                        (Client.recvBuffer condensed inp.stale d)).client_nsec1 : ℚ)
                        / 10 ^ 9)))) := by
  have hlen : (Client.emptyTable N).length = N := by simp [Client.emptyTable]
  have hlast : ∀ before inp after d, Client.processed inputs = before ++ inp :: after →
      inp.recv = some d → Client.decodedSeq e condensed inp = some (i + 1) →
      (∀ y ∈ after, Client.decodedSeq e condensed y ≠ some (i + 1)) →
      ∃ r, (Client.recvLoop e condensed N inputs (Client.emptyTable N))[i]? = some r
        ∧ r.seq = i + 1
        ∧ (Client.report N (Client.recvLoop e condensed N inputs (Client.emptyTable N)))[i]?
            = some (.result (i + 1) r.theta r.delta)
        ∧ r.theta = ((((((Client.decodeResponse e condensed
                        (Client.recvBuffer condensed inp.stale d)).serv_sec : ℚ)
                      + ((Client.decodeResponse e condensed
                        (Client.recvBuffer condensed inp.stale d)).serv_nsec : ℚ) / 10 ^ 9)
                    - (((Client.decodeResponse e condensed
                        (Client.recvBuffer condensed inp.stale d)).client_sec1 : ℚ)
                      + ((Client.decodeResponse e condensed
                        (Client.recvBuffer condensed inp.stale d)).client_nsec1 : ℚ) / 10 ^ 9))
                  + ((((Client.decodeResponse e condensed
                        (Client.recvBuffer condensed inp.stale d)).serv_sec : ℚ)
                      + ((Client.decodeResponse e condensed
                        (Client.recvBuffer condensed inp.stale d)).serv_nsec : ℚ) / 10 ^ 9)
                    - ((inp.sec2 : ℚ) + (inp.nsec2 : ℚ) / 10 ^ 9))) / 2)
        ∧ r.delta = (((inp.sec2 : ℚ) + (inp.nsec2 : ℚ) / 10 ^ 9)
                  - (((Client.decodeResponse e condensed
                        (Client.recvBuffer condensed inp.stale d)).client_sec1 : ℚ)
                      + ((Client.decodeResponse e condensed
                        (Client.recvBuffer condensed inp.stale d)).client_nsec1 : ℚ)
                        / 10 ^ 9)) := by
    intro before inp after d hsplit hrecv hseq hafter
    have hslot := Client.recvLoop_last e condensed N hN inputs before after inp d
      (Client.emptyTable N) hlen i hi hsplit hrecv hseq hafter
    refine ⟨_, hslot, rfl, Client.report_getElem N _ i hi _ hslot (by simp), ?_, ?_⟩
    · simp only [Client.instant]; norm_num
    · simp only [Client.instant]; norm_num
  by_cases h : ∃ inp ∈ Client.processed inputs, Client.decodedSeq e condensed inp = some (i + 1)
  · obtain ⟨before, inp, after, hsplit, hseq, hafter⟩ := split_last_such _ _ h
    obtain ⟨d, hrecv⟩ := Client.processed_isSome inputs inp (by
      rw [hsplit]; exact List.mem_append_right _ (List.mem_cons_self _ _))
    obtain ⟨r, hr, hrseq, hrep, _, _⟩ := hlast before inp after d hsplit hrecv hseq hafter
    refine ⟨⟨r, hr, Or.inr hrseq⟩, ?_, ?_⟩
    · constructor
      · intro hdrop
        rw [hrep] at hdrop
        cases hdrop
      · intro hnone
        obtain ⟨x, hx, hxs⟩ := h
        exact absurd hxs (hnone x hx)
    · intro b2 inp2 a2 d2 hs2 hr2 hq2 ha2
      obtain ⟨r2, _, _, hrep2, hth, hdl⟩ := hlast b2 inp2 a2 d2 hs2 hr2 hq2 ha2
      rw [hrep2, hth, hdl]
  · have hnone : ∀ inp ∈ Client.processed inputs,
        Client.decodedSeq e condensed inp ≠ some (i + 1) :=
      fun inp hinp hseq => h ⟨inp, hinp, hseq⟩
    have hslot : (Client.recvLoop e condensed N inputs (Client.emptyTable N))[i]?
        = some { seq := 0, theta := 0, delta := 0 } := by
      rw [Client.recvLoop_other e condensed N inputs _ i hnone, Client.emptyTable_getElem N i hi]
    have hrep := Client.report_dropped N _ i hi _ hslot rfl
    refine ⟨⟨_, hslot, Or.inl rfl⟩, ⟨fun _ => hnone, fun _ => hrep⟩, ?_⟩
    intro b2 inp2 a2 d2 hs2 _ hq2 _
    exact absurd hq2 (hnone inp2 (by
      rw [hs2]; exact List.mem_append_right _ (List.mem_cons_self _ _)))

/-- Witness of C20: two requests, the response numbered 1 received twice:
slot 0 holds 0 or 1, and line 2 reads "Dropped" as no datagram carried 2. -/
theorem C20_result_table_invariant_witness :
    ((2 : Nat) < 2 ^ 31 ∧ 0 < 2 ∧ 1 < 2)
      ∧ (∃ r, (Client.recvLoop .little false 2 ((List.range 2).map Scenario.lateEnv)
            (Client.emptyTable 2))[0]? = some r ∧ (r.seq = 0 ∨ r.seq = 0 + 1))
      ∧ ((Client.report 2 (Client.recvLoop .little false 2 ((List.range 2).map Scenario.lateEnv)
            (Client.emptyTable 2)))[1]? = some (.dropped (1 + 1))
          ↔ ∀ inp ∈ Client.processed ((List.range 2).map Scenario.lateEnv),
              Client.decodedSeq .little false inp ≠ some (1 + 1)) :=
  ⟨by decide,
    (C20_result_table_invariant .little false 2 ((List.range 2).map Scenario.lateEnv) 0
      (by decide) (by decide)).1,
    (C20_result_table_invariant .little false 2 ((List.range 2).map Scenario.lateEnv) 1
      (by decide) (by decide)).2.1⟩

end UdpTime
